import Mathlib

/-!
# lokinet event loop (`llarp/ev.cpp`, `llarp/ev_win32.hpp`)

A shallow embedding of the write entry points, the deferred close of TCP
connections, the driver loops, the UDP registration table, the TCP acceptor
and the reactor tick of the event loop, and of the HTTP header reader of
`libabyss/src/http.cpp`, together with the properties proved about them.

Conventions of the embedding:

* a buffer `(ptr, sz)` is a `List byte_t` whose length is `sz`; pointer
  arithmetic `ptr += n; sz -= n` is `List.drop n`, and the first `n` bytes at
  `ptr` are `List.take n`;
* `EV_WRITE_BUF_SZ` and `ev_io::queue_write` are declared in `ev.hpp`, which is
  not part of the sources at hand: the constant is a parameter and the method
  is a parameter `queue_write : Q → List byte_t → Bool × Q` acting on an
  abstract queue state `Q`;
* every call made to `queue_write` is logged together with its return value.
-/

namespace llarp

/-- One octet of a buffer. -/
abbrev byte_t := Nat

/-- One logged call of `queue_write`: the chunk handed over and the value returned. -/
abbrev WriteCall := List byte_t × Bool

/-- The caller-owned callback bundle `llarp_tcp_conn`; a field is `true` when the
function pointer is non-null. -/
structure llarp_tcp_conn where
  tick : Bool
  closed : Bool
  read : Bool
  deriving DecidableEq, Repr

/-- The event source `llarp::tcp_conn`: the should-close flag, the write queue and
the (nullable) pointer to the callback bundle. -/
structure tcp_conn (Q : Type) where
  _shouldClose : Bool
  writeq : Q
  tcp : Option llarp_tcp_conn

/-- The event source `llarp::tun`, reduced to its write queue. -/
structure tun (Q : Type) where
  writeq : Q

/-- Outcome of a write entry point: the returned flag, the queue afterwards and the
log of `queue_write` calls in call order. -/
structure WriteOutcome (Q : Type) where
  ret : Bool
  writeq : Q
  calls : List WriteCall

/-- The `while(sz > EV_WRITE_BUF_SZ)` loop of `llarp_tcp_conn_async_write` followed by
the final `return impl->queue_write(ptr, sz)`. One unit of fuel is spent per
evaluation of the loop condition. -/
def tcp_write_loop {Q : Type} (EV_WRITE_BUF_SZ : Nat)
    (queue_write : Q → List byte_t → Bool × Q) :
    Nat → Q → List byte_t → Option (WriteOutcome Q)
  | 0, _, _ => none
  | fuel + 1, q, ptr =>
    if EV_WRITE_BUF_SZ < ptr.length then
      match queue_write q (ptr.take EV_WRITE_BUF_SZ) with
      | (false, q1) => some ⟨false, q1, [(ptr.take EV_WRITE_BUF_SZ, false)]⟩
      | (true, q1) =>
        (tcp_write_loop EV_WRITE_BUF_SZ queue_write fuel q1 (ptr.drop EV_WRITE_BUF_SZ)).map
          (fun r => ⟨r.ret, r.writeq, (ptr.take EV_WRITE_BUF_SZ, true) :: r.calls⟩)
    else
      match queue_write q ptr with
      | (b, q1) => some ⟨b, q1, [(ptr, b)]⟩

/-- Embedding of `llarp_tcp_conn_async_write(conn, pkt, sz)`. -/
def llarp_tcp_conn_async_write {Q : Type} (EV_WRITE_BUF_SZ : Nat)
    (queue_write : Q → List byte_t → Bool × Q) (fuel : Nat)
    (impl : tcp_conn Q) (pkt : List byte_t) : Option (WriteOutcome Q) :=
  if impl._shouldClose then
    some ⟨false, impl.writeq, []⟩
  else
    tcp_write_loop EV_WRITE_BUF_SZ queue_write fuel impl.writeq pkt

/-- Embedding of `llarp_tcp_conn_close(conn)`: the only effect is the flag. -/
def llarp_tcp_conn_close {Q : Type} (impl : tcp_conn Q) : tcp_conn Q :=
  { impl with _shouldClose := true }

/-- Embedding of `llarp_ev_tun_async_write(tun, buf, sz)`. -/
def llarp_ev_tun_async_write {Q : Type} (EV_WRITE_BUF_SZ : Nat)
    (queue_write : Q → List byte_t → Bool × Q)
    (impl : tun Q) (buf : List byte_t) : WriteOutcome Q :=
  if EV_WRITE_BUF_SZ < buf.length then
    ⟨false, impl.writeq, []⟩
  else
    match queue_write impl.writeq buf with
    | (b, q1) => ⟨b, q1, [(buf, b)]⟩

/-- The queue reached from `q` by performing the logged calls in order. -/
def replayWrites {Q : Type} (queue_write : Q → List byte_t → Bool × Q) :
    Q → List WriteCall → Q
  | q, [] => q
  | q, c :: cs => replayWrites queue_write (queue_write q c.1).2 cs

/-- A log is consistent with `queue_write` from `q` when every logged return value
is the one `queue_write` gives at that point. -/
def consistentWrites {Q : Type} (queue_write : Q → List byte_t → Bool × Q) :
    Q → List WriteCall → Prop
  | _, [] => True
  | q, c :: cs => (queue_write q c.1).1 = c.2 ∧
      consistentWrites queue_write (queue_write q c.1).2 cs

/-- Modelled from the spec: the bounded stream write queue behind
`ev_io::queue_write` (declared in `ev.hpp`, absent from the sources). The spec
describes it as an ordered sequence of chunks with a capacity bound, where an
enqueue past capacity fails without loss. -/
structure WriteQueue where
  chunks : List (List byte_t)
  capacity : Nat
  deriving DecidableEq, Repr

/-- Modelled from the spec: `ev_io::queue_write` on a stream source, which appends
the chunk when the queue is below capacity and refuses it otherwise. -/
def WriteQueue.queue_write (q : WriteQueue) (buf : List byte_t) : Bool × WriteQueue :=
  if q.chunks.length < q.capacity then
    (true, { q with chunks := q.chunks ++ [buf] })
  else
    (false, q)

/-- What one run of the chunking loop from queue `q` on buffer `ptr` guarantees
about its outcome `r`. -/
structure LoopLog {Q : Type} (EV_WRITE_BUF_SZ : Nat)
    (queue_write : Q → List byte_t → Bool × Q)
    (q : Q) (ptr : List byte_t) (r : WriteOutcome Q) : Prop where
  nonempty : r.calls ≠ []
  last_ret : r.calls.getLast?.map Prod.snd = some r.ret
  init_acc : ∀ c ∈ r.calls.dropLast, c.1.length = EV_WRITE_BUF_SZ ∧ c.2 = true
  bounded : ∀ c ∈ r.calls, c.1.length ≤ EV_WRITE_BUF_SZ
  pre : (r.calls.map Prod.fst).flatten <+: ptr
  full : r.ret = true → (r.calls.map Prod.fst).flatten = ptr
  consistent : consistentWrites queue_write q r.calls
  replay : r.writeq = replayWrites queue_write q r.calls

/-! ## Deferred close of a TCP connection -/

/-- A callback invocation made by `tcp_conn::tick`. -/
inductive ConnEvent where
  | closed_cb
  | tick_cb
  deriving DecidableEq, Repr

/-- Embedding of `llarp::tcp_conn::tick()`: the returned flag and the callbacks
invoked, in order. The callbacks are opaque to the event loop and are taken
not to touch the connection. The result is `none` when the unguarded
`tcp->tick` dereferences a null `tcp`. -/
def tcp_conn.tick {Q : Type} (c : tcp_conn Q) : Option (Bool × List ConnEvent) :=
  if c._shouldClose then
    match c.tcp with
    | some t => if t.closed then some (false, [ConnEvent.closed_cb]) else some (false, [])
    | none => some (false, [])
  else
    match c.tcp with
    | none => none
    | some t => if t.tick then some (true, [ConnEvent.tick_cb]) else some (true, [])

/-- Modelled from the spec: the sweep `llarp_ev_loop::tick_listeners()` is defined in
`ev.hpp`, which is not among the sources. The spec has the reactor invoke
`tick()` on every registered source, scanning the source table, and remove
from the table a source whose `tick()` signals removal by returning `false`.
The table is given here by its TCP connections, each with the address of its
object; the result is the table after the sweep and the callbacks invoked,
each tagged with the address of its connection, and is `none` when a
`tick()` faults. -/
def tick_listeners {Q : Type} :
    List (Nat × tcp_conn Q) → Option (List (Nat × tcp_conn Q) × List (Nat × ConnEvent))
  | [] => some ([], [])
  | (id, c) :: rest =>
    match c.tick with
    | none => none
    | some (keep, evs) =>
      match tick_listeners rest with
      | none => none
      | some (rest1, evs1) =>
        some (if keep then (id, c) :: rest1 else rest1,
          evs.map (fun e => (id, e)) ++ evs1)

/-- The table and the callbacks after `n` consecutive sweeps. -/
def tick_listeners_iter {Q : Type} :
    Nat → List (Nat × tcp_conn Q) → Option (List (Nat × tcp_conn Q) × List (Nat × ConnEvent))
  | 0, hs => some (hs, [])
  | n + 1, hs =>
    match tick_listeners hs with
    | none => none
    | some (hs1, evs) =>
      match tick_listeners_iter n hs1 with
      | none => none
      | some (hs2, evs2) => some (hs2, evs ++ evs2)

/-! ## The completion-port reactor -/

/-- A Windows `HANDLE`. -/
abbrev HANDLE := Int

/-- A Windows `SOCKET`. -/
abbrev SOCKET := Nat

/-- The sentinel `INVALID_HANDLE_VALUE`, i.e. `(HANDLE)-1`. -/
def INVALID_HANDLE_VALUE : HANDLE := -1

/-- The descriptor `std::variant< SOCKET, HANDLE > fd` of an event source;
`fd.index()` is `0` for a socket and `1` for a handle, so the `default:` arms
of the switches on it are not reachable. -/
inductive fd_t where
  | socket (s : SOCKET)
  | handle (h : HANDLE)
  deriving DecidableEq, Repr

/-- The fields of `llarp::ev_io` that registration reads or writes;
`listener_id` is the address of the object. -/
structure ev_io where
  listener_id : Nat
  fd : fd_t
  isTCP : Bool
  write : Bool
  deriving DecidableEq, Repr

/-- The reactor `llarp_win32_loop`: the completion port and the handler table. -/
structure llarp_win32_loop where
  iocpfd : HANDLE
  handlers : List ev_io
  deriving DecidableEq, Repr

/-- The constructor `llarp_win32_loop()`. -/
def llarp_win32_loop.new : llarp_win32_loop :=
  ⟨INVALID_HANDLE_VALUE, []⟩

/-- Embedding of `llarp_win32_loop::init()`; `port` is what
`::CreateIoCompletionPort(INVALID_HANDLE_VALUE, nullptr, 0, 0)` returns. -/
def llarp_win32_loop.init (port : HANDLE) (l : llarp_win32_loop) :
    Bool × llarp_win32_loop :=
  let l1 := if l.iocpfd = INVALID_HANDLE_VALUE then { l with iocpfd := port } else l
  if l1.iocpfd = INVALID_HANDLE_VALUE then (false, l1) else (true, l1)

/-- Embedding of `llarp_win32_loop::running()`. -/
def llarp_win32_loop.running (l : llarp_win32_loop) : Bool :=
  l.iocpfd != INVALID_HANDLE_VALUE

/-- Embedding of `llarp_win32_loop::stop()`: the body is commented out in the
source, so the reactor is returned as it was. -/
def llarp_win32_loop.stop (l : llarp_win32_loop) : llarp_win32_loop :=
  l

/-- Embedding of `llarp_ev_loop_stop(loop)`. -/
def llarp_ev_loop_stop (loop : llarp_win32_loop) : llarp_win32_loop :=
  loop.stop

/-- Embedding of `llarp_win32_loop::add_ev(ev, write)`; `iocp_ok` tells whether
`::CreateIoCompletionPort` associates the descriptor. On failure the object is
deleted and the table is left alone; on success the first overlapped
operation is posted, `write` is recorded in the object and the object is
appended to `handlers`. The result is `none` when `std::get< SOCKET >` is
applied to a descriptor that holds a `HANDLE` (an exception in the source). -/
def llarp_win32_loop.add_ev (l : llarp_win32_loop) (iocp_ok : Bool) (ev : ev_io)
    (write : Bool) : Option (Bool × llarp_win32_loop) :=
  if ev.isTCP then
    match ev.fd with
    | fd_t.handle _ => none
    | fd_t.socket _ =>
      if !iocp_ok then some (false, l)
      else
        let ev1 := if write then { ev with write := true } else ev
        some (true, { l with handlers := l.handlers ++ [ev1] })
  else
    match ev.fd with
    | fd_t.socket _ =>
      if !iocp_ok then some (false, l)
      else
        let ev1 := if write then { ev with write := true } else ev
        some (true, { l with handlers := l.handlers ++ [ev1] })
    | fd_t.handle _ =>
      if !iocp_ok then some (false, l)
      else
        let ev1 := if write then { ev with write := true } else ev
        some (true, { l with handlers := l.handlers ++ [ev1] })

/-! ## UDP registration -/

/-- The caller-owned handle `llarp_udp_io`: `impl` is the address of the listener
object (null when `none`) and `parent` tells whether the back pointer to the
reactor has been set. -/
structure llarp_udp_io where
  impl : Option Nat
  parent : Bool
  deriving DecidableEq, Repr

/-- What the code does not decide during one `llarp_ev_add_udp`: the socket
`udp_bind` yields (`none` for `INVALID_SOCKET`), the address `new` gives the
listener object, the values the `ev_io(SOCKET)` constructor of `ev.hpp` gives
the flags `isTCP` and `write`, and whether `::CreateIoCompletionPort`
succeeds. -/
structure AddUdpEnv where
  bound : Option SOCKET
  addr : Nat
  isTCP : Bool
  write : Bool
  iocp_ok : Bool
  deriving DecidableEq, Repr

/-- Embedding of `llarp_win32_loop::create_udp(l, src)`: on a bound socket a
listener is allocated and stored in `l->impl` before it is returned. -/
def llarp_win32_loop.create_udp (env : AddUdpEnv) (l : llarp_udp_io) :
    Option ev_io × llarp_udp_io :=
  match env.bound with
  | none => (none, l)
  | some fd =>
    (some ⟨env.addr, fd_t.socket fd, env.isTCP, env.write⟩, { l with impl := some env.addr })

/-- Modelled from the spec: `llarp_ev_loop::udp_listen` is declared in `ev.hpp`,
which is absent from the sources. The spec has an `add_*` call create the
event source and place it in the reactor's source table, reporting failure
synchronously: the source is created with `create_udp` and registered with
`add_ev(ev, false)`. -/
def llarp_win32_loop.udp_listen (loop : llarp_win32_loop) (env : AddUdpEnv)
    (l : llarp_udp_io) : Option (Bool × llarp_win32_loop × llarp_udp_io) :=
  match llarp_win32_loop.create_udp env l with
  | (none, l1) => some (false, loop, l1)
  | (some ev, l1) =>
    match loop.add_ev env.iocp_ok ev false with
    | none => none
    | some (ok, loop1) => some (ok, loop1, l1)

/-- Embedding of `llarp_win32_loop::udp_close(l)`: with a non-null `impl` every
table entry pointing at that listener is erased, `impl` is cleared and the
result is `true`; the value of `close_ev(listener)` is discarded by the source
and does not appear here. -/
def llarp_win32_loop.udp_close (loop : llarp_win32_loop) (l : llarp_udp_io) :
    Bool × llarp_win32_loop × llarp_udp_io :=
  match l.impl with
  | some listener =>
    (true,
      { loop with handlers := loop.handlers.filter (fun h => h.listener_id != listener) },
      { l with impl := none })
  | none => (false, loop, l)

/-- Embedding of `llarp_ev_add_udp(ev, udp, src)`. -/
def llarp_ev_add_udp (ev : llarp_win32_loop) (env : AddUdpEnv) (udp : llarp_udp_io) :
    Option (Int × llarp_win32_loop × llarp_udp_io) :=
  match ev.udp_listen env { udp with parent := true } with
  | none => none
  | some (true, ev1, udp1) => some (0, ev1, udp1)
  | some (false, ev1, udp1) => some (-1, ev1, udp1)

/-- Embedding of `llarp_ev_close_udp(udp)`; `none` when `udp->parent` was never
set. -/
def llarp_ev_close_udp (ev : llarp_win32_loop) (udp : llarp_udp_io) :
    Option (Int × llarp_win32_loop × llarp_udp_io) :=
  if udp.parent then
    match ev.udp_close udp with
    | (true, ev1, udp1) => some (0, ev1, udp1)
    | (false, ev1, udp1) => some (-1, ev1, udp1)
  else none

/-- One call of the UDP registration interface on the handle numbered `h`. -/
inductive UdpCall where
  | add_udp (h : Nat) (env : AddUdpEnv)
  | close_udp (h : Nat)
  deriving DecidableEq, Repr

/-- A reactor together with the handles of its callers and the tally of the calls
that reported success. -/
structure UdpWorld where
  loop : llarp_win32_loop
  udp : Nat → llarp_udp_io
  adds_ok : Nat
  closes_ok : Nat

/-- The world before any call: an empty table and zero-initialised handles. -/
def UdpWorld.init (iocpfd : HANDLE) : UdpWorld :=
  ⟨⟨iocpfd, []⟩, fun _ => ⟨none, false⟩, 0, 0⟩

/-- Effect of one call on the world; `none` when the call faults. -/
def UdpWorld.step (w : UdpWorld) : UdpCall → Option UdpWorld
  | UdpCall.add_udp h env =>
    match llarp_ev_add_udp w.loop env (w.udp h) with
    | none => none
    | some (r, loop1, udp1) =>
      some ⟨loop1, Function.update w.udp h udp1,
        if r = 0 then w.adds_ok + 1 else w.adds_ok, w.closes_ok⟩
  | UdpCall.close_udp h =>
    match llarp_ev_close_udp w.loop (w.udp h) with
    | none => none
    | some (r, loop1, udp1) =>
      some ⟨loop1, Function.update w.udp h udp1,
        w.adds_ok, if r = 0 then w.closes_ok + 1 else w.closes_ok⟩

/-- Effect of a sequence of calls, left to right. -/
def UdpWorld.run (w : UdpWorld) : List UdpCall → Option UdpWorld
  | [] => some w
  | c :: cs =>
    match w.step c with
    | none => none
    | some w1 => UdpWorld.run w1 cs

/-- The bookkeeping that ties the handles to the handler table: the listeners in the
table have distinct addresses, every non-null `impl` points at a listener in
the table, no two handles share a listener, and the table holds one entry
per successful add not yet matched by a successful close. -/
structure UdpWorld.Consistent (w : UdpWorld) : Prop where
  nodup : (w.loop.handlers.map ev_io.listener_id).Nodup
  live : ∀ h a, (w.udp h).impl = some a → a ∈ w.loop.handlers.map ev_io.listener_id
  inj : ∀ h1 h2 a, (w.udp h1).impl = some a → (w.udp h2).impl = some a → h1 = h2
  count : w.loop.handlers.length + w.closes_ok = w.adds_ok

/-- A call that keeps the bookkeeping intact: a registration whose completion port
does not refuse a listener that was created, and whose listener is allocated
at an address no listener in the table occupies. -/
def UdpWorld.admits (w : UdpWorld) : UdpCall → Prop
  | UdpCall.add_udp _ env =>
    (env.bound ≠ none → env.iocp_ok = true) ∧
    ∀ e ∈ w.loop.handlers, e.listener_id ≠ env.addr
  | UdpCall.close_udp _ => True

/-- Every call of the sequence is admitted by the world it is made in. -/
def UdpWorld.admitsAll : UdpWorld → List UdpCall → Prop
  | _, [] => True
  | w, c :: cs => w.admits c ∧ ∀ w1, w.step c = some w1 → UdpWorld.admitsAll w1 cs

/-! ## The TCP acceptor -/

/-- The caller-owned bundle `llarp_tcp_acceptor`; `accepted` is `true` when the
function pointer is non-null. -/
structure llarp_tcp_acceptor where
  accepted : Bool
  deriving DecidableEq, Repr

/-- The event source `llarp::tcp_serv`: the listening socket it was constructed on
(`bind_tcp` builds it from a socket only) and the bundle of its owner. -/
structure tcp_serv where
  fd : SOCKET
  tcp : llarp_tcp_acceptor
  deriving DecidableEq, Repr

/-- The listening socket as the operating system holds it: whether it is open and
the connections waiting to be accepted. -/
structure ListenSocket where
  is_open : Bool
  backlog : List SOCKET
  deriving DecidableEq, Repr

/-- What the code does not decide during one `tcp_serv::read`: whether `::accept`
fails although a connection is waiting, the address `new` gives the
connection object, the values the `tcp_conn` constructor of `ev.hpp` gives
the flags `isTCP` and `write`, and whether `::CreateIoCompletionPort`
succeeds. -/
structure AcceptEnv where
  accept_err : Bool
  addr : Nat
  isTCP : Bool
  write : Bool
  iocp_ok : Bool
  deriving DecidableEq, Repr

/-- The call `::accept(fd, nullptr, nullptr)`: it takes the first waiting connection,
and yields `none` (`INVALID_SOCKET`) on an error or an empty backlog. -/
def accept (err : Bool) (s : ListenSocket) : Option SOCKET × ListenSocket :=
  if err then (none, s)
  else
    match s.backlog with
    | [] => (none, s)
    | c :: rest => (some c, { s with backlog := rest })

/-- What `tcp_serv::read` does that is visible outside it. -/
inductive ServEvent where
  | accept_call
  | accepted_cb (conn : Nat)
  deriving DecidableEq, Repr

/-- Outcome of one `tcp_serv::read`. -/
structure ReadOutcome where
  ret : Int
  loop : llarp_win32_loop
  sock : ListenSocket
  events : List ServEvent
  deriving DecidableEq, Repr

/-- How one `tcp_serv::read` ends: it returns, or `add_ev` raises, or the cleanup
after a refused registration deletes the connection object a second time. -/
inductive ReadResult where
  | returned (out : ReadOutcome)
  | raised
  | double_free
  deriving DecidableEq, Repr

/-- Embedding of `llarp::tcp_serv::read(void *, size_t)`; `sock` is the state of
the listening socket `fd`. When `add_ev` returns `false` it has already
deleted `connimpl` (`delete ev; return false;`), and the cleanup of `read`
then runs `delete connimpl` on the same object: the call ends in a double
free instead of returning `-1`. -/
def tcp_serv.read (serv : tcp_serv) (env : AcceptEnv) (loop : llarp_win32_loop)
    (sock : ListenSocket) : ReadResult :=
  match accept env.accept_err sock with
  | (none, sock1) => ReadResult.returned ⟨-1, loop, sock1, [ServEvent.accept_call]⟩
  | (some new_fd, sock1) =>
    let connimpl : ev_io := ⟨env.addr, fd_t.socket new_fd, env.isTCP, env.write⟩
    match loop.add_ev env.iocp_ok connimpl true with
    | none => ReadResult.raised
    | some (true, loop1) =>
      if serv.tcp.accepted then
        ReadResult.returned
          ⟨0, loop1, sock1, [ServEvent.accept_call, ServEvent.accepted_cb env.addr]⟩
      else
        ReadResult.returned ⟨0, loop1, sock1, [ServEvent.accept_call]⟩
    | some (false, _) => ReadResult.double_free

/-! ## UDP send -/

/-- The address family of a destination `sockaddr`. -/
inductive sa_family where
  | AF_INET
  | AF_INET6
  | other
  deriving DecidableEq, Repr

/-- One call of the socket send primitive `::WSASendTo`: the destination family and
the bytes handed over (the `WSABUF.len` first bytes of the buffer). -/
structure SendCall where
  family : sa_family
  data : List byte_t
  deriving DecidableEq, Repr

/-- Embedding of `llarp::udp_listener::sendto(to, data, sz)`, with `dest` the family
of `to`; `sent` is the value `::WSASendTo` returns and `s_errno` the value of
`::WSAGetLastError()` after it. The size `sz` is stored in the 32-bit field
`WSABUF.len`, so the send primitive is handed the first `sz mod 2^32` bytes
of the buffer. -/
def udp_listener.sendto (sent s_errno : Int) (dest : sa_family) (data : List byte_t) :
    Int × List SendCall :=
  let len := data.length % 2 ^ 32
  match dest with
  | sa_family.other => (-1, [])
  | fam =>
    if sent ≠ 0 ∧ s_errno ≠ 997 then (-1, [⟨fam, data.take len⟩])
    else (0, [⟨fam, data.take len⟩])

/-- Embedding of `llarp_ev_udp_sendto(udp, to, buf, sz)`; `none` when `udp->impl`
is null. The warning logged on `-1` does not change the result. -/
def llarp_ev_udp_sendto (sent s_errno : Int) (udp : llarp_udp_io) (dest : sa_family)
    (buf : List byte_t) : Option (Int × List SendCall) :=
  match udp.impl with
  | none => none
  | some _ => some (udp_listener.sendto sent s_errno dest buf)

/-! ## The driver loops -/

/-- The type `llarp_time_t`: milliseconds. -/
abbrev llarp_time_t := Nat

/-- The constant `EV_TICK_INTERVAL`. -/
def EV_TICK_INTERVAL : Nat := 100

/-- A call made by a driver loop. -/
inductive DriverEvent where
  | reactor_tick (ms : Nat)
  | logic_tick (now : llarp_time_t)
  | logic_tick_async (now : llarp_time_t)
  | threadpool_tick
  deriving DecidableEq, Repr

/-- The collaborators of the driver loops, acting on a reactor state `σ`:
`running` and `tick` are the virtual methods of `llarp_ev_loop`, the other
functions are the external `llarp_logic_tick`, `llarp_logic_tick_async`,
`llarp_threadpool_tick` (which may reach back into the reactor) and the
successive values of `llarp_time_now_ms()`. -/
structure DriverEnv (σ : Type) where
  running : σ → Bool
  tick : σ → Nat → σ
  logic_tick : σ → llarp_time_t → σ
  logic_tick_async : σ → llarp_time_t → σ
  threadpool_tick : σ → σ
  time_now_ms : Nat → llarp_time_t

/-- State of a driver loop: the reactor, its `_now` field, how many clock samples
were taken, and the calls made so far. -/
structure DriverState (σ : Type) where
  ev : σ
  _now : llarp_time_t
  samples : Nat
  trace : List DriverEvent

/-- Body of the `while` loop of `llarp_ev_loop_run`. -/
def llarp_ev_loop_run_body {σ : Type} (env : DriverEnv σ) (s : DriverState σ) :
    DriverState σ :=
  let now := env.time_now_ms s.samples
  let ev1 := env.tick s.ev EV_TICK_INTERVAL
  let tr1 := s.trace ++ [DriverEvent.reactor_tick EV_TICK_INTERVAL]
  if env.running ev1 then
    ⟨env.logic_tick ev1 now, now, s.samples + 1, tr1 ++ [DriverEvent.logic_tick now]⟩
  else
    ⟨ev1, now, s.samples + 1, tr1⟩

/-- Embedding of `llarp_ev_loop_run(ev, logic)`: `none` while the loop has not left
within the given number of evaluations of its condition. -/
def llarp_ev_loop_run {σ : Type} (env : DriverEnv σ) :
    Nat → DriverState σ → Option (Int × DriverState σ)
  | 0, _ => none
  | fuel + 1, s =>
    if env.running s.ev then
      llarp_ev_loop_run env fuel (llarp_ev_loop_run_body env s)
    else some (0, s)

/-- Body of the `while` loop of `llarp_ev_loop_run_single_process`. -/
def llarp_ev_loop_run_single_process_body {σ : Type} (env : DriverEnv σ)
    (s : DriverState σ) : DriverState σ :=
  let now := env.time_now_ms s.samples
  let ev1 := env.tick s.ev EV_TICK_INTERVAL
  let tr1 := s.trace ++ [DriverEvent.reactor_tick EV_TICK_INTERVAL]
  if env.running ev1 then
    ⟨env.threadpool_tick (env.logic_tick_async ev1 now), now, s.samples + 1,
      tr1 ++ [DriverEvent.logic_tick_async now, DriverEvent.threadpool_tick]⟩
  else
    ⟨ev1, now, s.samples + 1, tr1⟩

/-- Embedding of `llarp_ev_loop_run_single_process(ev, tp, logic)`. -/
def llarp_ev_loop_run_single_process {σ : Type} (env : DriverEnv σ) :
    Nat → DriverState σ → Option (DriverState σ)
  | 0, _ => none
  | fuel + 1, s =>
    if env.running s.ev then
      llarp_ev_loop_run_single_process env fuel (llarp_ev_loop_run_single_process_body env s)
    else some s

/-- The state after `n` evaluations of the condition of `llarp_ev_loop_run`; once
the condition is false the state stays as it is. -/
def llarp_ev_loop_run_steps {σ : Type} (env : DriverEnv σ) :
    Nat → DriverState σ → DriverState σ
  | 0, s => s
  | n + 1, s =>
    if env.running s.ev then
      llarp_ev_loop_run_steps env n (llarp_ev_loop_run_body env s)
    else s

/-- The state after `n` evaluations of the condition of
`llarp_ev_loop_run_single_process`. -/
def llarp_ev_loop_run_single_process_steps {σ : Type} (env : DriverEnv σ) :
    Nat → DriverState σ → DriverState σ
  | 0, s => s
  | n + 1, s =>
    if env.running s.ev then
      llarp_ev_loop_run_single_process_steps env n
        (llarp_ev_loop_run_single_process_body env s)
    else s

/-- A reactor that stops by itself, used to exercise the driver loops: the state is
the number of ticks left before `running()` turns false, and the clock
advances by one tick interval per sample. -/
def countdownEnv : DriverEnv Nat where
  running := fun n => n != 0
  tick := fun n _ => n - 1
  logic_tick := fun n _ => n
  logic_tick_async := fun n _ => n
  threadpool_tick := fun n => n
  time_now_ms := fun k => 1000 + 100 * k

/-! ## The reactor tick -/

/-- What one `::GetQueuedCompletionStatus` reports: its return value, the transfer
length `iolen`, the object the completion key `ev_id` points at (`none` for a
null key) and whether `qdata` is non-null. A wait that times out reports
`result = false` with a null `qdata`. -/
structure Completion where
  result : Bool
  iolen : Nat
  ev : Option ev_io
  qdata : Bool
  deriving DecidableEq, Repr

/-- A call made by the reactor during `tick` or `run`. The sweep `tick_listeners()`
is defined in `ev.hpp`, which is not among the sources, and is logged as one
call. -/
inductive TickEvent where
  | wait (iocpfd : HANDLE) (ms : Int)
  | flush_write (listener_id : Nat)
  | read (listener_id : Nat) (sz : Nat)
  | tick_listeners
  deriving DecidableEq, Repr

/-- Embedding of `llarp_win32_loop::tick(ms)`: the returned value and the calls made,
in order; `c` is what the wait reports. -/
def llarp_win32_loop.tick (l : llarp_win32_loop) (ms : Int) (c : Completion) :
    Int × List TickEvent :=
  let tr0 := [TickEvent.wait l.iocpfd ms]
  if c.result && c.qdata then
    let tr1 :=
      match c.ev with
      | some ev =>
        if ev.write then tr0 ++ [TickEvent.flush_write ev.listener_id]
        else tr0 ++ [TickEvent.read ev.listener_id c.iolen]
      | none => tr0
    (1, tr1 ++ [TickEvent.tick_listeners])
  else (-1, tr0)

/-- Embedding of `llarp_win32_loop::run()`; `readbuf_sz` is `sizeof(readbuf)`, the
size of the read buffer declared in `ev.hpp`. -/
def llarp_win32_loop.run (readbuf_sz : Nat) (l : llarp_win32_loop) (c : Completion) :
    Int × List TickEvent :=
  let tr0 := [TickEvent.wait l.iocpfd 10]
  if c.result && c.qdata then
    let tr1 :=
      match c.ev with
      | some ev =>
        if c.iolen ≤ readbuf_sz then tr0 ++ [TickEvent.read ev.listener_id c.iolen]
        else tr0
      | none => tr0
    (1, tr1 ++ [TickEvent.tick_listeners])
  else (-1, tr0)

end llarp

namespace abyss.http

/-! ## The HTTP header reader (`libabyss/src/http.cpp`) -/

/-- The constant `std::string_view::npos`, the largest `size_t`. -/
def npos : Nat := 2 ^ 64 - 1

/-- Index of the first character satisfying `p`, if there is one. -/
def find_if (p : Char → Bool) : List Char → Option Nat
  | [] => none
  | c :: cs => if p c then some 0 else (find_if p cs).map (fun i => i + 1)

/-- The method `std::string_view::find_first_of(ch)`: the index of the first
occurrence of `ch`, or `npos`. -/
def find_first_of (s : List Char) (ch : Char) : Nat :=
  (find_if (fun c => c == ch) s).getD npos

/-- The method `std::string_view::find_first_not_of(ch)`: the index of the first
character other than `ch`, or `npos`. -/
def find_first_not_of (s : List Char) (ch : Char) : Nat :=
  (find_if (fun c => c != ch) s).getD npos

/-- The method `std::string_view::substr(pos, count)`: it throws `std::out_of_range`
(here `none`) when `pos > size()`, and otherwise yields the
`min(count, size() - pos)` characters from `pos` on. The one-argument form
has `count = npos`. -/
def substr (s : List Char) (pos count : Nat) : Option (List Char) :=
  if s.length < pos then none
  else some ((s.drop pos).take (min count (s.length - pos)))

/-- The function `std::tolower` in the "C" locale, on the characters of a header
name. -/
def tolower (c : Char) : Char :=
  c.toLower

/-- Outcome of `ProcessHeaderLine` when it returns: the returned flag, the value of
the reference parameter `done` and the header collection. -/
structure LineOutcome (H : Type) where
  ret : Bool
  done : Bool
  headers : H
  deriving DecidableEq, Repr

/-- Embedding of `abyss::http::HeaderReader::ProcessHeaderLine(line, done)`. The
virtual `ShouldProcessHeader` and the collection `Header.Headers` with its
`emplace` are declared in `abyss/http.hpp`, which is not among the sources,
and are parameters. The result is `none` when a `substr` throws
`std::out_of_range`. -/
def HeaderReader.ProcessHeaderLine {H : Type} (ShouldProcessHeader : List Char → Bool)
    (emplace : H → List Char → List Char → H) (headers : H) (line : List Char)
    (done : Bool) : Option (LineOutcome H) :=
  if line.length = 0 then some ⟨true, true, headers⟩
  else
    let idx := find_first_of line ':'
    if idx = npos then some ⟨false, done, headers⟩
    else
      match substr line 0 idx, substr line (1 + idx) npos with
      | some header, some val =>
        let lowerHeader := header.map tolower
        if ShouldProcessHeader lowerHeader then
          match substr val (find_first_not_of val ' ') npos with
          | some val1 => some ⟨true, done, emplace headers lowerHeader val1⟩
          | none => none
        else some ⟨true, done, headers⟩
      | _, _ => none

/-- A header collection kept as the list of the pairs emplaced, oldest first. -/
def emplaceBack (h : List (List Char × List Char)) (k v : List Char) :
    List (List Char × List Char) :=
  h ++ [(k, v)]

end abyss.http

namespace llarp

/-! # Properties -/

/-! ## The chunking loop of `llarp_tcp_conn_async_write` -/
section loop
variable {Q : Type} (EV : Nat) (qw : Q → List byte_t → Bool × Q)

/-- The loop on a buffer within the ceiling: one call of `queue_write` on the whole
buffer, whose result is returned. -/
theorem tcp_write_loop_le (fuel : Nat) (q : Q) (ptr : List byte_t)
    (h : ¬ EV < ptr.length) :
    tcp_write_loop EV qw (fuel + 1) q ptr =
      some ⟨(qw q ptr).1, (qw q ptr).2, [(ptr, (qw q ptr).1)]⟩ := by
  simp only [tcp_write_loop, if_neg h]

/-- The loop on a buffer above the ceiling whose first chunk is refused: it returns
`false` at once. -/
theorem tcp_write_loop_refused (fuel : Nat) (q : Q) (ptr : List byte_t)
    (h : EV < ptr.length) (hr : (qw q (ptr.take EV)).1 = false) :
    tcp_write_loop EV qw (fuel + 1) q ptr =
      some ⟨false, (qw q (ptr.take EV)).2, [(ptr.take EV, false)]⟩ := by
  simp only [tcp_write_loop, if_pos h]
  rcases hq : qw q (ptr.take EV) with ⟨b, q1⟩
  rw [hq] at hr
  simp only at hr
  subst hr
  rfl

/-- The loop on a buffer above the ceiling whose first chunk is accepted: it goes on
with the rest of the buffer. -/
theorem tcp_write_loop_accepted (fuel : Nat) (q : Q) (ptr : List byte_t)
    (h : EV < ptr.length) (hr : (qw q (ptr.take EV)).1 = true) :
    tcp_write_loop EV qw (fuel + 1) q ptr =
      (tcp_write_loop EV qw fuel (qw q (ptr.take EV)).2 (ptr.drop EV)).map
        (fun r => ⟨r.ret, r.writeq, (ptr.take EV, true) :: r.calls⟩) := by
  simp only [tcp_write_loop, if_pos h]
  rcases hq : qw q (ptr.take EV) with ⟨b, q1⟩
  rw [hq] at hr
  simp only at hr
  subst hr
  rfl

/-- With a positive ceiling and fuel above the length of the buffer the loop returns,
and its outcome satisfies `LoopLog`. -/
theorem tcp_write_loop_log (hEV : 0 < EV) :
    ∀ (fuel : Nat) (q : Q) (ptr : List byte_t), ptr.length < fuel →
      ∃ r, tcp_write_loop EV qw fuel q ptr = some r ∧ LoopLog EV qw q ptr r := by
  intro fuel
  induction fuel with
  | zero => intro q ptr h; omega
  | succ fuel ih =>
    intro q ptr hfuel
    by_cases h : EV < ptr.length
    · cases hr : (qw q (ptr.take EV)).1 with
      | false =>
        refine ⟨_, tcp_write_loop_refused EV qw fuel q ptr h hr, ?_⟩
        have hlen : (ptr.take EV).length = EV := by
          rw [List.length_take]; omega
        refine ⟨by simp, by simp, by simp, ?_, ?_, by simp, ?_, ?_⟩
        · intro c hc
          simp only [List.mem_singleton] at hc
          subst hc
          exact le_of_eq hlen
        · simpa using List.take_prefix EV ptr
        · simp [consistentWrites, hr]
        · simp [replayWrites]
      | true =>
        have hlen : (ptr.take EV).length = EV := by
          rw [List.length_take]; omega
        have hdrop : (ptr.drop EV).length < fuel := by
          rw [List.length_drop]; omega
        obtain ⟨r, hr1, hr2⟩ := ih (qw q (ptr.take EV)).2 (ptr.drop EV) hdrop
        refine ⟨⟨r.ret, r.writeq, (ptr.take EV, true) :: r.calls⟩, ?_, ?_⟩
        · rw [tcp_write_loop_accepted EV qw fuel q ptr h hr, hr1]; rfl
        · obtain ⟨h1, h2, h3, h4, h5, h6, h7, h8⟩ := hr2
          refine ⟨by simp, ?_, ?_, ?_, ?_, ?_, ?_, ?_⟩
          · simp only
            obtain ⟨c, cs, hcs⟩ := List.exists_cons_of_ne_nil h1
            rw [hcs] at h2 ⊢
            rw [List.getLast?_cons_cons]
            exact h2
          · intro c hc
            simp only at hc
            rw [List.dropLast_cons_of_ne_nil h1] at hc
            rcases List.mem_cons.1 hc with rfl | hc
            · exact ⟨hlen, rfl⟩
            · exact h3 c hc
          · intro c hc
            rcases List.mem_cons.1 hc with rfl | hc
            · exact le_of_eq hlen
            · exact h4 c hc
          · simp only [List.map_cons, List.flatten_cons]
            conv_rhs => rw [← List.take_append_drop EV ptr]
            exact (List.prefix_append_right_inj _).2 h5
          · intro hret
            simp only [List.map_cons, List.flatten_cons]
            rw [h6 hret, List.take_append_drop]
          · exact ⟨hr, h7⟩
          · simpa [replayWrites] using h8
    · refine ⟨_, tcp_write_loop_le EV qw fuel q ptr h, ?_⟩
      refine ⟨by simp, by simp, by simp, ?_, by simp, by simp, ?_, ?_⟩
      · intro c hc
        simp only [List.mem_singleton] at hc
        subst hc
        simp only
        omega
      · simp [consistentWrites]
      · simp [replayWrites]

end loop

/-- C1: on an open connection the call makes its `queue_write` calls on the
connection's own queue, in order (each logged result is the one `queue_write`
gives in the state reached, and the queue afterwards is the one these calls
leave); every chunk handed over has at most `EV_WRITE_BUF_SZ` bytes, every
chunk but the last has exactly `EV_WRITE_BUF_SZ` bytes, and the chunks are
taken from the payload in order. When `queue_write` accepts every chunk it
is handed, the call returns `true` and the chunks concatenate to the payload;
a payload of `3 * EV_WRITE_BUF_SZ` bytes then gives exactly three enqueues
of `EV_WRITE_BUF_SZ` bytes each, in the order of the payload. -/
theorem tcp_async_write_chunks {Q : Type} (EV_WRITE_BUF_SZ : Nat)
    (queue_write : Q → List byte_t → Bool × Q) (fuel : Nat) (impl : tcp_conn Q)
    (pkt : List byte_t) (hEV : 0 < EV_WRITE_BUF_SZ)
    (hopen : impl._shouldClose = false) (hfuel : pkt.length < fuel) :
    ∃ r, llarp_tcp_conn_async_write EV_WRITE_BUF_SZ queue_write fuel impl pkt = some r ∧
      consistentWrites queue_write impl.writeq r.calls ∧
      r.writeq = replayWrites queue_write impl.writeq r.calls ∧
      r.calls.getLast?.map Prod.snd = some r.ret ∧
      (∀ c ∈ r.calls, c.1.length ≤ EV_WRITE_BUF_SZ) ∧
      (∀ c ∈ r.calls.dropLast, c.1.length = EV_WRITE_BUF_SZ) ∧
      (r.calls.map Prod.fst).flatten <+: pkt ∧
      ((∀ c ∈ r.calls, c.2 = true) →
        r.ret = true ∧
        (r.calls.map Prod.fst).flatten = pkt ∧
        (pkt.length = 3 * EV_WRITE_BUF_SZ →
          r.calls =
            [(pkt.take EV_WRITE_BUF_SZ, true),
              ((pkt.drop EV_WRITE_BUF_SZ).take EV_WRITE_BUF_SZ, true),
              (pkt.drop (2 * EV_WRITE_BUF_SZ), true)] ∧
          ∀ c ∈ r.calls, c.1.length = EV_WRITE_BUF_SZ)) := by
  obtain ⟨r, hr, hlog⟩ :=
    tcp_write_loop_log EV_WRITE_BUF_SZ queue_write hEV fuel impl.writeq pkt hfuel
  refine ⟨r, ?_, hlog.consistent, hlog.replay, hlog.last_ret, hlog.bounded,
    fun c hc => (hlog.init_acc c hc).1, hlog.pre, ?_⟩
  · simp only [llarp_tcp_conn_async_write, hopen, Bool.false_eq_true, if_false]
    exact hr
  · intro hall
    have hret : r.ret = true := by
      have hlast := hlog.last_ret
      cases hgl : r.calls.getLast? with
      | none => rw [hgl] at hlast; simp at hlast
      | some d =>
        rw [hgl] at hlast
        simp only [Option.map_some', Option.some.injEq] at hlast
        rw [← hlast]
        exact hall d (List.mem_of_getLast?_eq_some hgl)
    refine ⟨hret, hlog.full hret, ?_⟩
    intro h3
    obtain ⟨f1, hf⟩ : ∃ f1, fuel = f1 + 3 := ⟨fuel - 3, by omega⟩
    subst hf
    have e1 : EV_WRITE_BUF_SZ < pkt.length := by omega
    have e2 : EV_WRITE_BUF_SZ < (pkt.drop EV_WRITE_BUF_SZ).length := by
      rw [List.length_drop]; omega
    have e3 : ¬ EV_WRITE_BUF_SZ < ((pkt.drop EV_WRITE_BUF_SZ).drop EV_WRITE_BUF_SZ).length := by
      rw [List.length_drop, List.length_drop]; omega
    have hdd : (pkt.drop EV_WRITE_BUF_SZ).drop EV_WRITE_BUF_SZ =
        pkt.drop (2 * EV_WRITE_BUF_SZ) := by
      rw [List.drop_drop]; congr 1; omega
    cases h1 : (queue_write impl.writeq (pkt.take EV_WRITE_BUF_SZ)).1 with
    | false =>
      rw [tcp_write_loop_refused _ _ _ _ _ e1 h1] at hr
      simp only [Option.some.injEq] at hr
      subst hr
      have := hall (pkt.take EV_WRITE_BUF_SZ, false) (by simp)
      simp at this
    | true =>
      rw [tcp_write_loop_accepted _ _ _ _ _ e1 h1] at hr
      cases h2 : (queue_write (queue_write impl.writeq (pkt.take EV_WRITE_BUF_SZ)).2
          ((pkt.drop EV_WRITE_BUF_SZ).take EV_WRITE_BUF_SZ)).1 with
      | false =>
        rw [tcp_write_loop_refused _ _ _ _ _ e2 h2] at hr
        simp only [Option.map_some', Option.some.injEq] at hr
        subst hr
        have := hall ((pkt.drop EV_WRITE_BUF_SZ).take EV_WRITE_BUF_SZ, false) (by simp)
        simp at this
      | true =>
        rw [tcp_write_loop_accepted _ _ _ _ _ e2 h2, tcp_write_loop_le _ _ _ _ _ e3] at hr
        simp only [Option.map_some', Option.some.injEq] at hr
        subst hr
        have hb := hall (_, _) (List.mem_cons_of_mem _ (List.mem_cons_of_mem _
          (List.mem_singleton_self _)))
        simp only at hb
        refine ⟨?_, ?_⟩
        · show [_, _, (_, _)] = _
          rw [hb, hdd]
        · intro c hc
          simp only [List.mem_cons, List.mem_singleton, List.not_mem_nil, or_false] at hc
          rcases hc with rfl | rfl | rfl
          · simp only [List.length_take]; omega
          · simp only [List.length_take, List.length_drop]; omega
          · simp only [List.length_drop]; omega

/-- Witness for C1: a six-byte payload under a ceiling of two bytes on a bounded
queue that has room for three chunks. -/
theorem tcp_async_write_chunks_witness :
    ∃ r, llarp_tcp_conn_async_write 2 WriteQueue.queue_write 7
        ⟨false, ⟨[], 3⟩, none⟩ [1, 2, 3, 4, 5, 6] = some r ∧
      r.ret = true ∧
      r.writeq = ⟨[[1, 2], [3, 4], [5, 6]], 3⟩ ∧
      r.calls = [([1, 2], true), ([3, 4], true), ([5, 6], true)] ∧
      (r.calls.map Prod.fst).flatten = [1, 2, 3, 4, 5, 6] := by
  obtain ⟨r, hr, -, -, -, -, -, -, hacc⟩ :=
    tcp_async_write_chunks 2 WriteQueue.queue_write 7
      ⟨false, ⟨[], 3⟩, none⟩ [1, 2, 3, 4, 5, 6] (by decide) rfl (by decide)
  have hval : llarp_tcp_conn_async_write 2 WriteQueue.queue_write 7
      ⟨false, ⟨[], 3⟩, none⟩ [1, 2, 3, 4, 5, 6] =
      some ⟨true, ⟨[[1, 2], [3, 4], [5, 6]], 3⟩,
        [([1, 2], true), ([3, 4], true), ([5, 6], true)]⟩ := rfl
  rw [hval] at hr
  cases hr
  have hall := hacc (by decide)
  exact ⟨_, hval, hall.1, rfl, rfl, hall.2.1⟩

/-- The log of a loop run ends with the call whose result is returned, and every
call before it was accepted with a full chunk. -/
theorem LoopLog.split {Q : Type} {EV_WRITE_BUF_SZ : Nat}
    {queue_write : Q → List byte_t → Bool × Q} {q : Q} {ptr : List byte_t}
    {r : WriteOutcome Q} (h : LoopLog EV_WRITE_BUF_SZ queue_write q ptr r) :
    ∃ cs c, r.calls = cs ++ [(c, r.ret)] ∧
      ∀ d ∈ cs, d.1.length = EV_WRITE_BUF_SZ ∧ d.2 = true := by
  have hlast := h.last_ret
  cases hgl : r.calls.getLast? with
  | none => rw [hgl] at hlast; simp at hlast
  | some d =>
    rw [hgl] at hlast
    simp only [Option.map_some', Option.some.injEq] at hlast
    have hsplit := List.dropLast_append_getLast? d (by rw [hgl]; rfl)
    refine ⟨r.calls.dropLast, d.1, ?_, h.init_acc⟩
    rw [← hlast]
    exact hsplit.symm

/-- C2 (as the code behaves): the call returns `true` exactly when every chunk of
the payload was accepted by `queue_write`; when it returns `false`, either
the should-close flag was set and the queue is untouched, or `queue_write`
refused one chunk and the chunks accepted before it stay in the queue: the
queue afterwards is the one reached by the logged calls, and nothing is
undone. -/
theorem tcp_async_write_stops_at_first_refusal {Q : Type} (EV_WRITE_BUF_SZ : Nat)
    (queue_write : Q → List byte_t → Bool × Q) (fuel : Nat) (impl : tcp_conn Q)
    (pkt : List byte_t) (hEV : 0 < EV_WRITE_BUF_SZ) (hfuel : pkt.length < fuel) :
    ∃ r, llarp_tcp_conn_async_write EV_WRITE_BUF_SZ queue_write fuel impl pkt = some r ∧
      consistentWrites queue_write impl.writeq r.calls ∧
      r.writeq = replayWrites queue_write impl.writeq r.calls ∧
      (r.calls.map Prod.fst).flatten <+: pkt ∧
      (r.ret = true →
        (r.calls.map Prod.fst).flatten = pkt ∧ ∀ c ∈ r.calls, c.2 = true) ∧
      (r.ret = false →
        (impl._shouldClose = true ∧ r.calls = [] ∧ r.writeq = impl.writeq) ∨
        (impl._shouldClose = false ∧
          ∃ cs c, r.calls = cs ++ [(c, false)] ∧ ∀ d ∈ cs, d.2 = true)) := by
  cases hc : impl._shouldClose with
  | true =>
    refine ⟨⟨false, impl.writeq, []⟩, ?_, ?_, ?_, ?_, ?_, ?_⟩
    · simp [llarp_tcp_conn_async_write, hc]
    · simp [consistentWrites]
    · simp [replayWrites]
    · simp
    · intro h; simp at h
    · intro _; exact Or.inl ⟨rfl, rfl, rfl⟩
  | false =>
    obtain ⟨r, hr, hlog⟩ :=
      tcp_write_loop_log EV_WRITE_BUF_SZ queue_write hEV fuel impl.writeq pkt hfuel
    obtain ⟨cs, c, hcs, hacc⟩ := hlog.split
    refine ⟨r, ?_, hlog.consistent, hlog.replay, hlog.pre, ?_, ?_⟩
    · simp only [llarp_tcp_conn_async_write, hc, Bool.false_eq_true, if_false]
      exact hr
    · intro hret
      refine ⟨hlog.full hret, ?_⟩
      intro d hd
      rw [hcs] at hd
      rcases List.mem_append.1 hd with hd | hd
      · exact (hacc d hd).2
      · simp only [List.mem_singleton] at hd
        rw [hd]; exact hret
    · intro hret
      refine Or.inr ⟨rfl, cs, c, ?_, fun d hd => (hacc d hd).2⟩
      rw [hcs, hret]

/-- Witness for C2 as amended: three bytes under a
ceiling of two on a queue with room for one chunk. -/
theorem tcp_async_write_stops_at_first_refusal_witness :
    ∃ r, llarp_tcp_conn_async_write 2 WriteQueue.queue_write 4
        ⟨false, ⟨[], 1⟩, none⟩ [1, 2, 3] = some r ∧
      consistentWrites WriteQueue.queue_write ⟨[], 1⟩ r.calls ∧
      r.writeq = replayWrites WriteQueue.queue_write ⟨[], 1⟩ r.calls ∧
      (r.calls.map Prod.fst).flatten <+: [1, 2, 3] ∧
      (r.ret = true →
        (r.calls.map Prod.fst).flatten = [1, 2, 3] ∧ ∀ c ∈ r.calls, c.2 = true) ∧
      (r.ret = false →
        (false = true ∧ r.calls = [] ∧ r.writeq = ⟨[], 1⟩) ∨
        (false = false ∧
          ∃ cs c, r.calls = cs ++ [(c, false)] ∧ ∀ d ∈ cs, d.2 = true)) :=
  tcp_async_write_stops_at_first_refusal 2 WriteQueue.queue_write 4
    ⟨false, ⟨[], 1⟩, none⟩ [1, 2, 3] (by decide) (by decide)

/-- C2 fails as stated: with a ceiling of two bytes and a queue that has room for
one more chunk, a three-byte payload makes the call return `false` while the
first chunk `[1, 2]` of that payload stays in the queue. -/
theorem tcp_async_write_not_all_or_nothing :
    ∃ r, llarp_tcp_conn_async_write 2 WriteQueue.queue_write 4
        ⟨false, ⟨[], 1⟩, none⟩ [1, 2, 3] = some r ∧
      r.ret = false ∧
      r.calls = [([1, 2], true), ([3], false)] ∧
      r.writeq = ⟨[[1, 2]], 1⟩ ∧
      r.writeq ≠ ⟨[], 1⟩ :=
  ⟨_, rfl, rfl, rfl, rfl, by decide⟩

/-- The partial enqueue does not depend on the value of the ceiling: for every
positive `EV_WRITE_BUF_SZ`, a payload one byte longer than the ceiling on a
queue with room for one chunk returns `false` and leaves the first chunk
enqueued. -/
theorem tcp_async_write_partial_any_ceiling (EV_WRITE_BUF_SZ : Nat)
    (hEV : 0 < EV_WRITE_BUF_SZ) :
    llarp_tcp_conn_async_write EV_WRITE_BUF_SZ WriteQueue.queue_write 2
        ⟨false, ⟨[], 1⟩, none⟩ (List.replicate (EV_WRITE_BUF_SZ + 1) 0) =
      some ⟨false, ⟨[List.replicate EV_WRITE_BUF_SZ 0], 1⟩,
        [(List.replicate EV_WRITE_BUF_SZ 0, true), ([0], false)]⟩ := by
  have e1 : EV_WRITE_BUF_SZ < (List.replicate (EV_WRITE_BUF_SZ + 1) (0 : byte_t)).length := by
    simp
  have e2 : ¬ EV_WRITE_BUF_SZ <
      ((List.replicate (EV_WRITE_BUF_SZ + 1) (0 : byte_t)).drop EV_WRITE_BUF_SZ).length := by
    simp only [List.length_drop, List.length_replicate]; omega
  simp only [llarp_tcp_conn_async_write, Bool.false_eq_true, if_false]
  rw [tcp_write_loop_accepted _ _ _ _ _ e1 (by simp [WriteQueue.queue_write]),
    tcp_write_loop_le _ _ _ _ _ e2]
  simp [WriteQueue.queue_write, List.take_replicate, List.drop_replicate]

/-- C3: with the should-close flag set the call returns `false`, makes no
`queue_write` call and leaves the queue as it was, for every payload and
fuel; this is in particular the outcome of every write on a connection that
`llarp_tcp_conn_close` has been applied to. -/
theorem tcp_async_write_refused_when_closing {Q : Type} (EV_WRITE_BUF_SZ : Nat)
    (queue_write : Q → List byte_t → Bool × Q) (fuel : Nat) (impl : tcp_conn Q)
    (pkt : List byte_t) :
    (impl._shouldClose = true →
      llarp_tcp_conn_async_write EV_WRITE_BUF_SZ queue_write fuel impl pkt =
        some ⟨false, impl.writeq, []⟩) ∧
    llarp_tcp_conn_async_write EV_WRITE_BUF_SZ queue_write fuel
        (llarp_tcp_conn_close impl) pkt =
      some ⟨false, impl.writeq, []⟩ := by
  constructor
  · intro h
    simp [llarp_tcp_conn_async_write, h]
  · simp [llarp_tcp_conn_async_write, llarp_tcp_conn_close]

/-- Witness for C3: a closing connection with
room in its queue refuses a one-byte and (after `llarp_tcp_conn_close`) a
three-byte write alike. -/
theorem tcp_async_write_refused_when_closing_witness :
    llarp_tcp_conn_async_write 2 WriteQueue.queue_write 4
        ⟨true, ⟨[], 8⟩, none⟩ [1, 2, 3] = some ⟨false, ⟨[], 8⟩, []⟩ :=
  (tcp_async_write_refused_when_closing 2 WriteQueue.queue_write 4
    ⟨true, ⟨[], 8⟩, none⟩ [1, 2, 3]).1 rfl

/-- C4: a packet longer than `EV_WRITE_BUF_SZ` is refused without any
`queue_write` call, the queue being left as it was; a packet of at most
`EV_WRITE_BUF_SZ` bytes is handed to `queue_write` whole, in one call, and
the result is the result of that call. -/
theorem tun_async_write_ceiling {Q : Type} (EV_WRITE_BUF_SZ : Nat)
    (queue_write : Q → List byte_t → Bool × Q) (impl : tun Q) (buf : List byte_t) :
    (EV_WRITE_BUF_SZ < buf.length →
      llarp_ev_tun_async_write EV_WRITE_BUF_SZ queue_write impl buf =
        ⟨false, impl.writeq, []⟩) ∧
    (buf.length ≤ EV_WRITE_BUF_SZ →
      llarp_ev_tun_async_write EV_WRITE_BUF_SZ queue_write impl buf =
        ⟨(queue_write impl.writeq buf).1, (queue_write impl.writeq buf).2,
          [(buf, (queue_write impl.writeq buf).1)]⟩) := by
  constructor
  · intro h
    simp [llarp_ev_tun_async_write, h]
  · intro h
    simp [llarp_ev_tun_async_write, Nat.not_lt.2 h]

/-- Witness for C4: under a ceiling of two bytes a
three-byte packet is refused and a two-byte packet is enqueued whole. -/
theorem tun_async_write_ceiling_witness :
    llarp_ev_tun_async_write 2 WriteQueue.queue_write ⟨⟨[], 8⟩⟩ [1, 2, 3] =
        ⟨false, ⟨[], 8⟩, []⟩ ∧
    llarp_ev_tun_async_write 2 WriteQueue.queue_write ⟨⟨[], 8⟩⟩ [1, 2] =
        ⟨true, ⟨[[1, 2]], 8⟩, [([1, 2], true)]⟩ :=
  ⟨(tun_async_write_ceiling 2 WriteQueue.queue_write ⟨⟨[], 8⟩⟩ [1, 2, 3]).1 (by decide),
    (tun_async_write_ceiling 2 WriteQueue.queue_write ⟨⟨[], 8⟩⟩ [1, 2]).2 (by decide)⟩

/-! ## Deferred close -/

/-- Each `tcp_conn::tick()` of a connection whose should-close flag is set and whose
bundle has a `closed` callback returns `false` after invoking exactly that
callback. -/
theorem tcp_conn.tick_closing {Q : Type} (c : tcp_conn Q) (t : llarp_tcp_conn)
    (hflag : c._shouldClose = true) (htcp : c.tcp = some t) (hcb : t.closed = true) :
    c.tick = some (false, [ConnEvent.closed_cb]) := by
  simp [tcp_conn.tick, hflag, htcp, hcb]

/-- A `tcp_conn::tick()` on a connection with a non-null bundle returns. -/
theorem tcp_conn.tick_returns {Q : Type} (c : tcp_conn Q) (h : c.tcp ≠ none) :
    ∃ b evs, c.tick = some (b, evs) := by
  cases ht : c.tcp with
  | none => exact absurd ht h
  | some t =>
    cases hc : c._shouldClose <;> cases hcl : t.closed <;> cases hti : t.tick <;>
      simp [tcp_conn.tick, ht, hc, hcl, hti]

/-- A sweep only drops entries and only invokes callbacks of connections in the
table. -/
theorem tick_listeners_sub {Q : Type} (hs hs1 : List (Nat × tcp_conn Q))
    (evs : List (Nat × ConnEvent)) (h : tick_listeners hs = some (hs1, evs)) :
    hs1.Sublist hs ∧ ∀ e ∈ evs, e.1 ∈ hs.map Prod.fst := by
  induction hs generalizing hs1 evs with
  | nil =>
    simp only [tick_listeners, Option.some.injEq, Prod.mk.injEq] at h
    obtain ⟨rfl, rfl⟩ := h
    simp
  | cons x rest ih =>
    obtain ⟨id, c⟩ := x
    simp only [tick_listeners] at h
    cases hc : c.tick with
    | none => simp [hc] at h
    | some r =>
      obtain ⟨keep, ev0⟩ := r
      cases hr : tick_listeners rest with
      | none => simp [hc, hr] at h
      | some r1 =>
        obtain ⟨rest1, evs1⟩ := r1
        simp only [hc, hr, Option.some.injEq, Prod.mk.injEq] at h
        obtain ⟨rfl, rfl⟩ := h
        obtain ⟨hsub, hev⟩ := ih rest1 evs1 hr
        constructor
        · cases keep
          · simpa using hsub.cons (id, c)
          · simpa using hsub.cons₂ (id, c)
        · intro e he
          rcases List.mem_append.1 he with he | he
          · obtain ⟨e0, -, rfl⟩ := List.mem_map.1 he
            simp
          · simp only [List.map_cons, List.mem_cons]
            exact Or.inr (hev e he)

/-- A sweep over a table whose connections all have a bundle returns. -/
theorem tick_listeners_returns {Q : Type} (hs : List (Nat × tcp_conn Q))
    (hwf : ∀ e ∈ hs, e.2.tcp ≠ none) :
    ∃ hs1 evs, tick_listeners hs = some (hs1, evs) := by
  induction hs with
  | nil => exact ⟨[], [], rfl⟩
  | cons x rest ih =>
    obtain ⟨id, c⟩ := x
    obtain ⟨b, ev0, hc⟩ := tcp_conn.tick_returns c (hwf (id, c) (List.mem_cons_self _ _))
    obtain ⟨rest1, evs1, hr⟩ := ih (fun e he => hwf e (List.mem_cons_of_mem _ he))
    exact ⟨if b then (id, c) :: rest1 else rest1, ev0.map (fun e => (id, e)) ++ evs1,
      by simp only [tick_listeners, hc, hr]⟩

/-- A sweep over two tables laid end to end is the sweep of the first followed by the
sweep of the second. -/
theorem tick_listeners_append {Q : Type} (xs ys xs1 ys1 : List (Nat × tcp_conn Q))
    (ex ey : List (Nat × ConnEvent)) (hx : tick_listeners xs = some (xs1, ex))
    (hy : tick_listeners ys = some (ys1, ey)) :
    tick_listeners (xs ++ ys) = some (xs1 ++ ys1, ex ++ ey) := by
  induction xs generalizing xs1 ex with
  | nil =>
    simp only [tick_listeners, Option.some.injEq, Prod.mk.injEq] at hx
    obtain ⟨rfl, rfl⟩ := hx
    simpa using hy
  | cons x rest ih =>
    obtain ⟨id, c⟩ := x
    simp only [tick_listeners] at hx
    cases hc : c.tick with
    | none => simp [hc] at hx
    | some r =>
      obtain ⟨keep, ev0⟩ := r
      cases hr : tick_listeners rest with
      | none => simp [hc, hr] at hx
      | some r1 =>
        obtain ⟨rest1, evs1⟩ := r1
        simp only [hc, hr, Option.some.injEq, Prod.mk.injEq] at hx
        obtain ⟨rfl, rfl⟩ := hx
        have hrest : tick_listeners (rest.append ys) = some (rest1 ++ ys1, evs1 ++ ey) :=
          ih rest1 evs1 hr
        simp only [List.cons_append, tick_listeners, hc]
        rw [hrest]
        cases keep <;> simp

/-- Sweeps over a table that does not hold the address `a`, and whose connections all
have a bundle, return and invoke no callback of `a`. -/
theorem tick_listeners_iter_absent {Q : Type} (a : Nat) (n : Nat)
    (hs : List (Nat × tcp_conn Q)) (hwf : ∀ e ∈ hs, e.2.tcp ≠ none)
    (habs : ∀ e ∈ hs, e.1 ≠ a) :
    ∃ hs2 evs2, tick_listeners_iter n hs = some (hs2, evs2) ∧
      (∀ e ∈ evs2, e.1 ≠ a) ∧ ∀ e ∈ hs2, e.1 ≠ a := by
  induction n generalizing hs with
  | zero => exact ⟨hs, [], rfl, by simp, habs⟩
  | succ n ih =>
    obtain ⟨hs1, evs, h1⟩ := tick_listeners_returns hs hwf
    obtain ⟨hsub, hev⟩ := tick_listeners_sub hs hs1 evs h1
    obtain ⟨hs2, evs2, h2, hno, htab⟩ :=
      ih hs1 (fun e he => hwf e (hsub.subset he)) (fun e he => habs e (hsub.subset he))
    refine ⟨hs2, evs ++ evs2, by simp only [tick_listeners_iter, h1, h2], ?_, htab⟩
    intro e he
    rcases List.mem_append.1 he with he | he
    · obtain ⟨x, hx, hxa⟩ := List.mem_map.1 (hev e he)
      rw [← hxa]
      exact habs x hx
    · exact hno e he

/-- C5: `llarp_tcp_conn_close` changes nothing but the should-close flag, so it
invokes no callback. In the next sweep of the table the connection's
`tcp_conn::tick` returns `false` after invoking `closed` once and nothing
else, the connection is removed from the table, and no later sweep invokes a
callback of that connection again. -/
theorem tcp_conn_close_closed_once {Q : Type} (pre post : List (Nat × tcp_conn Q))
    (a : Nat) (c : tcp_conn Q) (t : llarp_tcp_conn)
    (htcp : c.tcp = some t) (hcb : t.closed = true)
    (hwf : ∀ e ∈ pre ++ post, e.2.tcp ≠ none) (hids : ∀ e ∈ pre ++ post, e.1 ≠ a) :
    (llarp_tcp_conn_close c)._shouldClose = true ∧
    (llarp_tcp_conn_close c).writeq = c.writeq ∧
    (llarp_tcp_conn_close c).tcp = c.tcp ∧
    (llarp_tcp_conn_close c).tick = some (false, [ConnEvent.closed_cb]) ∧
    ∃ hs1 evs,
      tick_listeners (pre ++ (a, llarp_tcp_conn_close c) :: post) = some (hs1, evs) ∧
      evs.filter (fun e => e.1 == a) = [(a, ConnEvent.closed_cb)] ∧
      (∀ e ∈ hs1, e.1 ≠ a) ∧
      ∀ n, ∃ hs2 evs2, tick_listeners_iter n hs1 = some (hs2, evs2) ∧
        (∀ e ∈ evs2, e.1 ≠ a) ∧ ∀ e ∈ hs2, e.1 ≠ a := by
  have htick : (llarp_tcp_conn_close c).tick = some (false, [ConnEvent.closed_cb]) :=
    tcp_conn.tick_closing _ t rfl htcp hcb
  refine ⟨rfl, rfl, rfl, htick, ?_⟩
  have hwpre : ∀ e ∈ pre, e.2.tcp ≠ none := fun e he => hwf e (List.mem_append_left _ he)
  have hwpost : ∀ e ∈ post, e.2.tcp ≠ none := fun e he => hwf e (List.mem_append_right _ he)
  have hapre : ∀ e ∈ pre, e.1 ≠ a := fun e he => hids e (List.mem_append_left _ he)
  have hapost : ∀ e ∈ post, e.1 ≠ a := fun e he => hids e (List.mem_append_right _ he)
  obtain ⟨pre1, epre, hp⟩ := tick_listeners_returns pre hwpre
  obtain ⟨post1, epost, hq⟩ := tick_listeners_returns post hwpost
  obtain ⟨hpsub, hpev⟩ := tick_listeners_sub pre pre1 epre hp
  obtain ⟨hqsub, hqev⟩ := tick_listeners_sub post post1 epost hq
  have hmid : tick_listeners ((a, llarp_tcp_conn_close c) :: post) =
      some (post1, (a, ConnEvent.closed_cb) :: epost) := by
    simp only [tick_listeners, htick, hq]
    simp
  have hnopre : ∀ e ∈ epre, e.1 ≠ a := by
    intro e he
    obtain ⟨x, hx, hxa⟩ := List.mem_map.1 (hpev e he)
    rw [← hxa]; exact hapre x hx
  have hnopost : ∀ e ∈ epost, e.1 ≠ a := by
    intro e he
    obtain ⟨x, hx, hxa⟩ := List.mem_map.1 (hqev e he)
    rw [← hxa]; exact hapost x hx
  have htab : ∀ e ∈ pre1 ++ post1, e.1 ≠ a := by
    intro e he
    rcases List.mem_append.1 he with he | he
    · exact hapre e (hpsub.subset he)
    · exact hapost e (hqsub.subset he)
  have htabwf : ∀ e ∈ pre1 ++ post1, e.2.tcp ≠ none := by
    intro e he
    rcases List.mem_append.1 he with he | he
    · exact hwpre e (hpsub.subset he)
    · exact hwpost e (hqsub.subset he)
  refine ⟨pre1 ++ post1, epre ++ (a, ConnEvent.closed_cb) :: epost,
    tick_listeners_append _ _ _ _ _ _ hp hmid, ?_, htab, ?_⟩
  · have f1 : epre.filter (fun e => e.1 == a) = [] := by
      apply List.filter_eq_nil_iff.2
      intro e he
      simpa using hnopre e he
    have f2 : epost.filter (fun e => e.1 == a) = [] := by
      apply List.filter_eq_nil_iff.2
      intro e he
      simpa using hnopost e he
    simp [List.filter_append, List.filter_cons, f1, f2]
  · intro n
    exact tick_listeners_iter_absent a n _ htabwf htab

/-- Witness for C5: a table of two connections, the second of which is closed by
its owner; the first sweep invokes `closed` of the second once and the tick
callback of the first, and drops the second. -/
theorem tcp_conn_close_closed_once_witness :
    ∃ hs1 evs,
      tick_listeners ([(10, (⟨false, (), some ⟨true, true, true⟩⟩ : tcp_conn Unit))] ++
        (20, llarp_tcp_conn_close ⟨false, (), some ⟨true, true, true⟩⟩) :: []) =
        some (hs1, evs) ∧
      evs.filter (fun e => e.1 == 20) = [(20, ConnEvent.closed_cb)] ∧
      (∀ e ∈ hs1, e.1 ≠ 20) ∧
      ∀ n, ∃ hs2 evs2, tick_listeners_iter n hs1 = some (hs2, evs2) ∧
        (∀ e ∈ evs2, e.1 ≠ 20) ∧ ∀ e ∈ hs2, e.1 ≠ 20 :=
  (tcp_conn_close_closed_once
    [(10, (⟨false, (), some ⟨true, true, true⟩⟩ : tcp_conn Unit))] [] 20
    ⟨false, (), some ⟨true, true, true⟩⟩ ⟨true, true, true⟩ rfl rfl
    (by simp) (by simp)).2.2.2.2

/-! ## The reactor state and the driver loops -/

/-- The reactor's `stop()` leaves `running()` as it was. -/
theorem llarp_win32_loop.running_stop (l : llarp_win32_loop) :
    (llarp_ev_loop_stop l).running = l.running :=
  rfl

/-- C6 (the code at the failing input): a reactor set up by the constructor and a
successful `init()` is running, and it is still running after
`llarp_ev_loop_stop`. -/
theorem stop_leaves_reactor_running :
    (llarp_win32_loop.init 4 llarp_win32_loop.new).1 = true ∧
    (llarp_win32_loop.init 4 llarp_win32_loop.new).2.running = true ∧
    (llarp_ev_loop_stop (llarp_win32_loop.init 4 llarp_win32_loop.new).2).running = true := by
  decide

/-- Once `running()` is false, `llarp_ev_loop_run` makes no further call. -/
theorem llarp_ev_loop_run_steps_stopped {σ : Type} (env : DriverEnv σ)
    (s : DriverState σ) (h : env.running s.ev = false) (n : Nat) :
    llarp_ev_loop_run_steps env n s = s := by
  cases n with
  | zero => rfl
  | succ n => simp [llarp_ev_loop_run_steps, h]

/-- Once `running()` is false, `llarp_ev_loop_run_single_process` makes no further
call. -/
theorem llarp_ev_loop_run_single_process_steps_stopped {σ : Type} (env : DriverEnv σ)
    (s : DriverState σ) (h : env.running s.ev = false) (n : Nat) :
    llarp_ev_loop_run_single_process_steps env n s = s := by
  cases n with
  | zero => rfl
  | succ n => simp [llarp_ev_loop_run_single_process_steps, h]

/-- C7: in both driver loops, a loop whose condition finds `running()` false returns
at once, with no call made. A loop whose condition finds `running()` true
runs the body once and goes back to the condition with the state the body
left. The body samples `now`, performs one reactor tick with budget
`EV_TICK_INTERVAL` and, exactly when `running()` is true after that tick,
invokes the Logic tick (for the pooled loop the asynchronous Logic tick
followed by the thread-pool tick) with that same `now`; the state it leaves
is the reactor as these calls left it, `_now` equal to the sample, and one
more clock sample taken. When `running()` is false after the reactor tick,
or after the Logic tick that follows it, the loop returns from the next
condition with no further call. -/
theorem driver_loop_iteration {σ : Type} (env : DriverEnv σ) (s : DriverState σ) :
    (env.running s.ev = false →
      (∀ fuel, llarp_ev_loop_run env (fuel + 1) s = some (0, s)) ∧
      (∀ fuel, llarp_ev_loop_run_single_process env (fuel + 1) s = some s) ∧
      (∀ n, llarp_ev_loop_run_steps env n s = s) ∧
      (∀ n, llarp_ev_loop_run_single_process_steps env n s = s)) ∧
    (env.running s.ev = true →
      (∀ fuel, llarp_ev_loop_run env (fuel + 1) s =
        llarp_ev_loop_run env fuel (llarp_ev_loop_run_body env s)) ∧
      (∀ fuel, llarp_ev_loop_run_single_process env (fuel + 1) s =
        llarp_ev_loop_run_single_process env fuel
          (llarp_ev_loop_run_single_process_body env s)) ∧
      (∀ n, llarp_ev_loop_run_steps env (n + 1) s =
        llarp_ev_loop_run_steps env n (llarp_ev_loop_run_body env s)) ∧
      (∀ n, llarp_ev_loop_run_single_process_steps env (n + 1) s =
        llarp_ev_loop_run_single_process_steps env n
          (llarp_ev_loop_run_single_process_body env s))) ∧
    (env.running (env.tick s.ev EV_TICK_INTERVAL) = true →
      llarp_ev_loop_run_body env s =
        ⟨env.logic_tick (env.tick s.ev EV_TICK_INTERVAL) (env.time_now_ms s.samples),
          env.time_now_ms s.samples, s.samples + 1,
          s.trace ++ [DriverEvent.reactor_tick EV_TICK_INTERVAL,
            DriverEvent.logic_tick (env.time_now_ms s.samples)]⟩ ∧
      llarp_ev_loop_run_single_process_body env s =
        ⟨env.threadpool_tick
            (env.logic_tick_async (env.tick s.ev EV_TICK_INTERVAL)
              (env.time_now_ms s.samples)),
          env.time_now_ms s.samples, s.samples + 1,
          s.trace ++ [DriverEvent.reactor_tick EV_TICK_INTERVAL,
            DriverEvent.logic_tick_async (env.time_now_ms s.samples),
            DriverEvent.threadpool_tick]⟩) ∧
    (env.running (env.tick s.ev EV_TICK_INTERVAL) = false →
      llarp_ev_loop_run_body env s =
        ⟨env.tick s.ev EV_TICK_INTERVAL, env.time_now_ms s.samples, s.samples + 1,
          s.trace ++ [DriverEvent.reactor_tick EV_TICK_INTERVAL]⟩ ∧
      llarp_ev_loop_run_single_process_body env s =
        ⟨env.tick s.ev EV_TICK_INTERVAL, env.time_now_ms s.samples, s.samples + 1,
          s.trace ++ [DriverEvent.reactor_tick EV_TICK_INTERVAL]⟩) ∧
    (env.running s.ev = true →
      env.running (llarp_ev_loop_run_body env s).ev = false →
      ∀ fuel, llarp_ev_loop_run env (fuel + 2) s =
        some (0, llarp_ev_loop_run_body env s)) ∧
    (env.running s.ev = true →
      env.running (llarp_ev_loop_run_single_process_body env s).ev = false →
      ∀ fuel, llarp_ev_loop_run_single_process env (fuel + 2) s =
        some (llarp_ev_loop_run_single_process_body env s)) := by
  refine ⟨?_, ?_, ?_, ?_, ?_, ?_⟩
  · intro h
    refine ⟨?_, ?_, llarp_ev_loop_run_steps_stopped env s h,
      llarp_ev_loop_run_single_process_steps_stopped env s h⟩
    · intro fuel; simp [llarp_ev_loop_run, h]
    · intro fuel; simp [llarp_ev_loop_run_single_process, h]
  · intro h
    refine ⟨?_, ?_, ?_, ?_⟩
    · intro fuel; simp [llarp_ev_loop_run, h]
    · intro fuel; simp [llarp_ev_loop_run_single_process, h]
    · intro n; simp [llarp_ev_loop_run_steps, h]
    · intro n; simp [llarp_ev_loop_run_single_process_steps, h]
  · intro ht
    constructor
    · simp [llarp_ev_loop_run_body, ht]
    · simp [llarp_ev_loop_run_single_process_body, ht]
  · intro ht
    constructor
    · simp [llarp_ev_loop_run_body, ht]
    · simp [llarp_ev_loop_run_single_process_body, ht]
  · intro h hb fuel
    simp [llarp_ev_loop_run, h, hb]
  · intro h hb fuel
    simp [llarp_ev_loop_run_single_process, h, hb]

/-- Witness for C7: a reactor with three ticks left is driven to the end by the
single-threaded loop: three reactor ticks, a Logic tick after the first two
with the time sampled in that iteration, none after the third, and a return
value of `0`; a reactor with one tick left is driven alike by the pooled
loop. -/
theorem driver_loop_iteration_witness :
    llarp_ev_loop_run countdownEnv (2 + 1) ⟨3, 0, 0, []⟩ =
      llarp_ev_loop_run countdownEnv 2 ⟨2, 1000, 1,
        [] ++ [DriverEvent.reactor_tick EV_TICK_INTERVAL, DriverEvent.logic_tick 1000]⟩ ∧
    llarp_ev_loop_run countdownEnv 4 ⟨3, 0, 0, []⟩ =
      some (0, ⟨0, 1200, 3,
        [DriverEvent.reactor_tick 100, DriverEvent.logic_tick 1000,
          DriverEvent.reactor_tick 100, DriverEvent.logic_tick 1100,
          DriverEvent.reactor_tick 100]⟩) ∧
    llarp_ev_loop_run_single_process countdownEnv (0 + 2) ⟨1, 0, 0, []⟩ =
      some ⟨0, 1000, 1, [DriverEvent.reactor_tick 100]⟩ := by
  have h1 := ((driver_loop_iteration countdownEnv ⟨3, 0, 0, []⟩).2.1 rfl).1 2
  have h2 := ((driver_loop_iteration countdownEnv ⟨3, 0, 0, []⟩).2.2.1 rfl).1
  refine ⟨?_, rfl, (driver_loop_iteration countdownEnv ⟨1, 0, 0, []⟩).2.2.2.2.2 rfl rfl 0⟩
  rw [h1, h2]
  rfl

/-! ## The acceptor, UDP send and UDP registration -/

/-- Registration of an object on a socket never raises: it either fails and leaves
the table alone, or succeeds and appends exactly the given object (with
`write` set when asked for); it succeeds exactly when the completion port
accepts the descriptor. -/
theorem llarp_win32_loop.add_ev_socket (l : llarp_win32_loop) (iocp_ok : Bool)
    (listener_id : Nat) (fd : SOCKET) (isTCP w write : Bool) :
    l.add_ev iocp_ok ⟨listener_id, fd_t.socket fd, isTCP, w⟩ write =
      if iocp_ok then
        some (true, { l with handlers :=
          l.handlers ++ [⟨listener_id, fd_t.socket fd, isTCP, write || w⟩] })
      else some (false, l) := by
  unfold llarp_win32_loop.add_ev
  cases iocp_ok <;> cases isTCP <;> cases write <;> simp

/-- What one `tcp_serv::read` does on every input. It ends in a double free exactly
when a connection was accepted and its registration refused, and it never
raises. When it returns, it has called `::accept` once and so taken at most
one connection from the backlog, appended at most one connection to the
handler table and invoked `accepted` at most once; it returns `0` (and
invokes `accepted`, when set) only if a connection was accepted and
registered; a failed accept returns `-1` with no callback and the table as it
was; and the listening socket is not closed nor any entry dropped from the
table. -/
theorem tcp_serv_read_cases (serv : tcp_serv) (env : AcceptEnv)
    (loop : llarp_win32_loop) (sock : ListenSocket) :
    (serv.read env loop sock = ReadResult.double_free ↔
      ((accept env.accept_err sock).1 ≠ none ∧ env.iocp_ok = false)) ∧
    serv.read env loop sock ≠ ReadResult.raised ∧
    ∀ r, serv.read env loop sock = ReadResult.returned r →
      r.events.count ServEvent.accept_call = 1 ∧
      (r.sock.backlog = sock.backlog ∨ ∃ c, sock.backlog = c :: r.sock.backlog) ∧
      (r.loop.handlers = loop.handlers ∨ ∃ ev, r.loop.handlers = loop.handlers ++ [ev]) ∧
      (r.events.filter (fun e => e != ServEvent.accept_call)).length ≤ 1 ∧
      ((r.ret = 0 ∨ ∃ conn, ServEvent.accepted_cb conn ∈ r.events) →
        ∃ new_fd, (accept env.accept_err sock).1 = some new_fd ∧ env.iocp_ok = true ∧
          r.loop.handlers =
            loop.handlers ++ [⟨env.addr, fd_t.socket new_fd, env.isTCP, true⟩] ∧
          r.events =
            if serv.tcp.accepted then
              [ServEvent.accept_call, ServEvent.accepted_cb env.addr]
            else [ServEvent.accept_call]) ∧
      ((accept env.accept_err sock).1 = none →
        r.ret = -1 ∧ r.events = [ServEvent.accept_call] ∧ r.loop = loop) ∧
      r.sock.is_open = sock.is_open ∧
      loop.handlers <+: r.loop.handlers ∧
      r.loop.iocpfd = loop.iocpfd := by
  rcases env with ⟨accept_err, addr, isTCP, w, iocp_ok⟩
  rcases sock with ⟨is_open, backlog⟩
  rcases serv with ⟨fd, ⟨accepted⟩⟩
  cases accept_err <;> cases iocp_ok <;> cases accepted <;> rcases backlog with _ | ⟨c, rest⟩ <;>
    simp [tcp_serv.read, accept, llarp_win32_loop.add_ev_socket, List.count_cons]

/-- C9 (the code at the failing input): with two connections waiting, `::accept`
succeeding and `::CreateIoCompletionPort` refusing the new socket,
`tcp_serv::read` does not return `-1`: `add_ev` has deleted the connection
object and the cleanup of `read` deletes it again. -/
theorem tcp_serv_read_double_free :
    (accept false ⟨true, [7, 8]⟩).1 = some 7 ∧
    tcp_serv.read ⟨3, ⟨true⟩⟩ ⟨false, 200, true, false, false⟩
        ⟨4, [⟨1, fd_t.socket 3, true, false⟩]⟩ ⟨true, [7, 8]⟩ =
      ReadResult.double_free := by
  decide

/-- The send path never looks at the size of the payload: the returned value and the
destination of the single send are those for the empty payload. -/
theorem udp_listener.sendto_size_blind (sent s_errno : Int) (dest : sa_family)
    (data : List byte_t) :
    (udp_listener.sendto sent s_errno dest data).1 =
      (udp_listener.sendto sent s_errno dest []).1 := by
  cases dest <;> simp only [udp_listener.sendto] <;> split <;> rfl

/-- C10 (as the code behaves): `llarp_ev_udp_sendto` compares the size of the payload
with no ceiling, so a payload above `EV_WRITE_BUF_SZ` is treated like any
other. For a destination of family `AF_INET` or `AF_INET6` the payload is
handed to the send primitive in one call (the first `sz mod 2^32` bytes of
it, hence all of it below `2^32` bytes), and the result is `-1` exactly when
that send reports a failure other than the pending code `997`, and `0`
otherwise; for any other family the result is `-1` and nothing is handed to
the send primitive. -/
theorem udp_sendto_no_ceiling (sent s_errno : Int) (udp : llarp_udp_io)
    (dest : sa_family) (buf : List byte_t) (himpl : udp.impl ≠ none) :
    ∃ r, llarp_ev_udp_sendto sent s_errno udp dest buf = some r ∧
      (dest = sa_family.other → r = (-1, [])) ∧
      (dest ≠ sa_family.other →
        r.2 = [⟨dest, buf.take (buf.length % 2 ^ 32)⟩] ∧
        (buf.length < 2 ^ 32 → r.2 = [⟨dest, buf⟩]) ∧
        (r.1 = -1 ↔ sent ≠ 0 ∧ s_errno ≠ 997) ∧
        (r.1 = 0 ↔ ¬ (sent ≠ 0 ∧ s_errno ≠ 997))) := by
  cases hi : udp.impl with
  | none => exact absurd hi himpl
  | some p =>
    refine ⟨udp_listener.sendto sent s_errno dest buf, ?_, ?_, ?_⟩
    · simp [llarp_ev_udp_sendto, hi]
    · intro h; subst h; rfl
    · intro h
      have hwhole : buf.length < 2 ^ 32 → buf.take (buf.length % 2 ^ 32) = buf := by
        intro hlt
        rw [Nat.mod_eq_of_lt hlt, List.take_length]
      by_cases hs : sent ≠ 0 ∧ s_errno ≠ 997
      · cases dest
        · simp only [udp_listener.sendto, if_pos hs]
          exact ⟨trivial, fun hlt => by rw [hwhole hlt], by simp [hs], by simp [hs]⟩
        · simp only [udp_listener.sendto, if_pos hs]
          exact ⟨trivial, fun hlt => by rw [hwhole hlt], by simp [hs], by simp [hs]⟩
        · exact absurd rfl h
      · cases dest
        · simp only [udp_listener.sendto, if_neg hs]
          exact ⟨trivial, fun hlt => by rw [hwhole hlt], by simp [hs], by simp [hs]⟩
        · simp only [udp_listener.sendto, if_neg hs]
          exact ⟨trivial, fun hlt => by rw [hwhole hlt], by simp [hs], by simp [hs]⟩
        · exact absurd rfl h

/-- Witness for C10 as amended: a three-byte datagram to an IPv4 destination on a
send that completes at once. -/
theorem udp_sendto_no_ceiling_witness :
    ∃ r, llarp_ev_udp_sendto 0 0 ⟨some 100, true⟩ sa_family.AF_INET [7, 8, 9] = some r ∧
      (sa_family.AF_INET = sa_family.other → r = (-1, [])) ∧
      (sa_family.AF_INET ≠ sa_family.other →
        r.2 = [⟨sa_family.AF_INET,
          ([7, 8, 9] : List byte_t).take (([7, 8, 9] : List byte_t).length % 2 ^ 32)⟩] ∧
        (([7, 8, 9] : List byte_t).length < 2 ^ 32 →
          r.2 = [⟨sa_family.AF_INET, [7, 8, 9]⟩]) ∧
        (r.1 = -1 ↔ (0 : Int) ≠ 0 ∧ (0 : Int) ≠ 997) ∧
        (r.1 = 0 ↔ ¬ ((0 : Int) ≠ 0 ∧ (0 : Int) ≠ 997))) :=
  udp_sendto_no_ceiling 0 0 ⟨some 100, true⟩ sa_family.AF_INET [7, 8, 9] (by decide)

/-- C10 fails as stated: with a ceiling of two bytes, a three-byte payload to an
IPv4 destination is not rejected; the call returns `0` and the whole payload
is handed to the send primitive. -/
theorem udp_sendto_oversize_not_rejected :
    (2 : Nat) < ([7, 8, 9] : List byte_t).length ∧
    llarp_ev_udp_sendto 0 0 ⟨some 100, true⟩ sa_family.AF_INET [7, 8, 9] =
      some (0, [⟨sa_family.AF_INET, [7, 8, 9]⟩]) := by
  decide

/-- C8 (the code at the failing input): handle 0 is registered, the registration of
handle 1 fails at the completion port after `create_udp` has stored the
listener in `impl`, and `llarp_ev_close_udp` on handle 1 then reports
success: one source is in the table while successful adds minus successful
closes is zero. -/
theorem udp_close_after_failed_add :
    ∃ w, (UdpWorld.init 4).run
        [UdpCall.add_udp 0 ⟨some 5, 100, false, false, true⟩,
          UdpCall.add_udp 1 ⟨some 6, 200, false, false, false⟩,
          UdpCall.close_udp 1] = some w ∧
      w.loop.handlers = [⟨100, fd_t.socket 5, false, false⟩] ∧
      w.adds_ok = 1 ∧ w.closes_ok = 1 ∧
      ¬ (w.loop.handlers.length ≤ w.adds_ok - w.closes_ok) ∧
      ¬ ((w.loop.handlers.length : Int) ≤ (w.adds_ok : Int) - (w.closes_ok : Int)) :=
  ⟨_, rfl, rfl, rfl, rfl, by decide, by decide⟩

/-- A successful `udp_close` erases every table entry of that listener and clears
`impl`, so that a second `udp_close` on the same handle fails and leaves the
table unchanged. -/
theorem llarp_win32_loop.udp_close_twice (loop : llarp_win32_loop) (l : llarp_udp_io)
    (listener : Nat) (h : l.impl = some listener) :
    (loop.udp_close l).1 = true ∧
    (∀ e ∈ (loop.udp_close l).2.1.handlers, e.listener_id ≠ listener) ∧
    (loop.udp_close l).2.2.impl = none ∧
    (loop.udp_close l).2.1.udp_close (loop.udp_close l).2.2 =
      (false, (loop.udp_close l).2.1, (loop.udp_close l).2.2) := by
  simp [llarp_win32_loop.udp_close, h]

/-- Erasing the one listener at address `a` from a table of distinct listeners
shortens the table by exactly one entry. -/
theorem length_filter_listener (l : List ev_io) (a : Nat)
    (hnd : (l.map ev_io.listener_id).Nodup) (hmem : a ∈ l.map ev_io.listener_id) :
    (l.filter (fun h => h.listener_id != a)).length + 1 = l.length := by
  induction l with
  | nil => simp at hmem
  | cons e l ih =>
    simp only [List.map_cons, List.nodup_cons] at hnd
    simp only [List.map_cons, List.mem_cons] at hmem
    by_cases he : e.listener_id = a
    · have hnot : a ∉ l.map ev_io.listener_id := he ▸ hnd.1
      have hall : l.filter (fun h => h.listener_id != a) = l := by
        apply List.filter_eq_self.2
        intro x hx
        have : x.listener_id ≠ a := fun h =>
          hnot (h ▸ List.mem_map_of_mem ev_io.listener_id hx)
        simpa using this
      simp [List.filter_cons, he, hall]
    · have hin : a ∈ l.map ev_io.listener_id := by
        rcases hmem with h | h
        · exact absurd h.symm he
        · exact h
      have := ih hnd.2 hin
      simp [List.filter_cons, he]
      omega

/-- The world before any call is consistent. -/
theorem UdpWorld.init_consistent (iocpfd : HANDLE) : (UdpWorld.init iocpfd).Consistent := by
  refine ⟨by simp [UdpWorld.init], ?_, ?_, rfl⟩
  · intro h a ha; simp [UdpWorld.init] at ha
  · intro h1 h2 a ha; simp [UdpWorld.init] at ha

/-- An admitted call keeps a consistent world consistent. -/
theorem UdpWorld.step_consistent (w w1 : UdpWorld) (c : UdpCall) (hw : w.Consistent)
    (hadm : w.admits c) (hstep : w.step c = some w1) : w1.Consistent := by
  obtain ⟨hnd, hlive, hinj, hcount⟩ := hw
  cases c with
  | add_udp h env =>
    obtain ⟨hok, hfresh⟩ := hadm
    rcases env with ⟨bound, addr, isTCP, wr, iocp_ok⟩
    cases bound with
    | none =>
      simp only [UdpWorld.step, llarp_ev_add_udp, llarp_win32_loop.udp_listen,
        llarp_win32_loop.create_udp] at hstep
      simp only [Option.some.injEq] at hstep
      subst hstep
      refine ⟨hnd, ?_, ?_, ?_⟩
      · intro h' a ha
        by_cases hh : h' = h
        · subst hh; simp at ha; exact hlive _ a ha
        · simp [Function.update_noteq hh] at ha; exact hlive _ a ha
      · intro h1 h2 a ha1 ha2
        have e1 : (w.udp h1).impl = some a := by
          by_cases hh : h1 = h
          · subst hh; simpa using ha1
          · simpa [Function.update_noteq hh] using ha1
        have e2 : (w.udp h2).impl = some a := by
          by_cases hh : h2 = h
          · subst hh; simpa using ha2
          · simpa [Function.update_noteq hh] using ha2
        exact hinj h1 h2 a e1 e2
      · simpa using hcount
    | some fd =>
      have hiocp : iocp_ok = true := hok (by simp)
      subst hiocp
      simp only [UdpWorld.step, llarp_ev_add_udp, llarp_win32_loop.udp_listen,
        llarp_win32_loop.create_udp, llarp_win32_loop.add_ev_socket, if_true] at hstep
      simp only [Option.some.injEq] at hstep
      subst hstep
      have hnotin : addr ∉ w.loop.handlers.map ev_io.listener_id := by
        intro hin
        obtain ⟨e, he, hea⟩ := List.mem_map.1 hin
        exact hfresh e he hea
      refine ⟨?_, ?_, ?_, ?_⟩
      · simp only [List.map_append, List.map_cons, List.map_nil]
        exact List.Nodup.append hnd (List.nodup_singleton _)
          (by simpa [List.disjoint_singleton] using hnotin)
      · intro h' a ha
        simp only [List.map_append, List.map_cons, List.map_nil, List.mem_append,
          List.mem_singleton]
        by_cases hh : h' = h
        · subst hh; simp at ha; exact Or.inr ha.symm
        · simp [Function.update_noteq hh] at ha; exact Or.inl (hlive _ a ha)
      · intro h1 h2 a ha1 ha2
        by_cases hh1 : h1 = h <;> by_cases hh2 : h2 = h
        · rw [hh1, hh2]
        · subst hh1
          simp at ha1
          simp [Function.update_noteq hh2] at ha2
          exact absurd (ha1 ▸ hlive _ a ha2) hnotin
        · subst hh2
          simp at ha2
          simp [Function.update_noteq hh1] at ha1
          exact absurd (ha2 ▸ hlive _ a ha1) hnotin
        · simp [Function.update_noteq hh1] at ha1
          simp [Function.update_noteq hh2] at ha2
          exact hinj h1 h2 a ha1 ha2
      · simp only [List.length_append, List.length_singleton, if_true]
        omega
  | close_udp h =>
    simp only [UdpWorld.step, llarp_ev_close_udp] at hstep
    cases hp : (w.udp h).parent with
    | false => simp [hp] at hstep
    | true =>
      cases hi : (w.udp h).impl with
      | none =>
        simp only [hp, if_true, llarp_win32_loop.udp_close, hi, Option.some.injEq] at hstep
        subst hstep
        have hupd : Function.update w.udp h (w.udp h) = w.udp := Function.update_eq_self h w.udp
        refine ⟨hnd, ?_, ?_, ?_⟩
        · intro h' a ha; rw [hupd] at ha; exact hlive _ a ha
        · intro h1 h2 a ha1 ha2; rw [hupd] at ha1 ha2; exact hinj h1 h2 a ha1 ha2
        · simpa using hcount
      | some a =>
        simp only [hp, if_true, llarp_win32_loop.udp_close, hi, Option.some.injEq] at hstep
        subst hstep
        have hlen := length_filter_listener w.loop.handlers a hnd (hlive h a hi)
        refine ⟨?_, ?_, ?_, ?_⟩
        · exact hnd.sublist (List.Sublist.map _ (List.filter_sublist _))
        · intro h' b hb
          by_cases hh : h' = h
          · subst hh; simp at hb
          · simp [Function.update_noteq hh] at hb
            have hne : b ≠ a := fun hba => hh (hinj h' h a (hba ▸ hb) hi)
            obtain ⟨e, he, heb⟩ := List.mem_map.1 (hlive _ b hb)
            refine List.mem_map.2 ⟨e, List.mem_filter.2 ⟨he, ?_⟩, heb⟩
            simpa [heb] using hne
        · intro h1 h2 b hb1 hb2
          by_cases hh1 : h1 = h
          · subst hh1; simp at hb1
          · by_cases hh2 : h2 = h
            · subst hh2; simp at hb2
            · simp [Function.update_noteq hh1] at hb1
              simp [Function.update_noteq hh2] at hb2
              exact hinj h1 h2 b hb1 hb2
        · simp only [if_true]
          omega

/-- The bound on the number of registered sources, where it does hold: along every sequence of calls in which no
registration is refused after its listener was created and no listener is
allocated at the address of one still in the table, the number of sources in
the table equals the successful adds minus the successful closes. -/
theorem UdpWorld.run_count (w w1 : UdpWorld) (cs : List UdpCall) (hw : w.Consistent)
    (hadm : w.admitsAll cs) (hrun : w.run cs = some w1) :
    w1.loop.handlers.length = w1.adds_ok - w1.closes_ok ∧ w1.closes_ok ≤ w1.adds_ok := by
  induction cs generalizing w with
  | nil =>
    simp only [UdpWorld.run, Option.some.injEq] at hrun
    subst hrun
    have := hw.count
    omega
  | cons c cs ih =>
    simp only [UdpWorld.run] at hrun
    cases hs : w.step c with
    | none => simp [hs] at hrun
    | some w2 =>
      simp only [hs] at hrun
      exact ih w2 (UdpWorld.step_consistent w w2 c hw hadm.1 hs) (hadm.2 w2 hs) hrun

/-! ## The reactor tick -/

/-- C11 (as the code behaves): `tick(ms)` calls the sweep `tick_listeners()` exactly
when the wait dequeued a completion (`result && qdata`); it then returns `1`,
the sweep is called once and is the last call made, after the read or flush
dispatch of that completion. When the wait timed out or failed with nothing
dequeued, `tick` returns `-1` having made no call but the wait. -/
theorem tick_sweeps_after_completion (l : llarp_win32_loop) (ms : Int) (c : Completion) :
    (TickEvent.tick_listeners ∈ (l.tick ms c).2 ↔ (c.result = true ∧ c.qdata = true)) ∧
    ((c.result = true ∧ c.qdata = true) →
      (l.tick ms c).1 = 1 ∧
      (l.tick ms c).2.getLast? = some TickEvent.tick_listeners ∧
      (l.tick ms c).2.count TickEvent.tick_listeners = 1) ∧
    (¬ (c.result = true ∧ c.qdata = true) →
      l.tick ms c = (-1, [TickEvent.wait l.iocpfd ms])) := by
  rcases c with ⟨result, iolen, ev, qdata⟩
  cases result <;> cases qdata <;> rcases ev with _ | ⟨id, fd, isTCP, w⟩ <;>
    (try cases w) <;> simp [llarp_win32_loop.tick, List.count_cons]

/-- Witness for C11 as amended: a completion of 10 bytes for a registered source in
read mode. -/
theorem tick_sweeps_after_completion_witness :
    (llarp_win32_loop.tick ⟨4, [⟨1, fd_t.socket 3, false, false⟩]⟩ 100
        ⟨true, 10, some ⟨1, fd_t.socket 3, false, false⟩, true⟩).1 = 1 ∧
    (llarp_win32_loop.tick ⟨4, [⟨1, fd_t.socket 3, false, false⟩]⟩ 100
        ⟨true, 10, some ⟨1, fd_t.socket 3, false, false⟩, true⟩).2.getLast? =
      some TickEvent.tick_listeners ∧
    (llarp_win32_loop.tick ⟨4, [⟨1, fd_t.socket 3, false, false⟩]⟩ 100
        ⟨true, 10, some ⟨1, fd_t.socket 3, false, false⟩, true⟩).2.count
      TickEvent.tick_listeners = 1 :=
  (tick_sweeps_after_completion ⟨4, [⟨1, fd_t.socket 3, false, false⟩]⟩ 100
    ⟨true, 10, some ⟨1, fd_t.socket 3, false, false⟩, true⟩).2.1 ⟨rfl, rfl⟩

/-- C11 fails as stated: when the wait times out, `tick` on a reactor with one
registered source returns `-1` and does not call `tick_listeners()`. -/
theorem tick_timeout_skips_sweep :
    llarp_win32_loop.tick ⟨4, [⟨1, fd_t.socket 3, false, false⟩]⟩ 100
        ⟨false, 0, none, false⟩ = (-1, [TickEvent.wait 4 100]) ∧
    TickEvent.tick_listeners ∉
      (llarp_win32_loop.tick ⟨4, [⟨1, fd_t.socket 3, false, false⟩]⟩ 100
        ⟨false, 0, none, false⟩).2 := by
  decide

/-- In `tick`, a dequeued completion for a source in read mode is forwarded to `read`
with the reported length, whatever that length is; in `run` it is forwarded
exactly when the length is within the read buffer. -/
theorem tick_read_unchecked (readbuf_sz : Nat) (l : llarp_win32_loop) (ms : Int)
    (ev : ev_io) (iolen : Nat) (hread : ev.write = false) :
    TickEvent.read ev.listener_id iolen ∈ (l.tick ms ⟨true, iolen, some ev, true⟩).2 ∧
    (TickEvent.read ev.listener_id iolen ∈
        (l.run readbuf_sz ⟨true, iolen, some ev, true⟩).2 ↔ iolen ≤ readbuf_sz) := by
  constructor
  · simp [llarp_win32_loop.tick, hread]
  · by_cases h : iolen ≤ readbuf_sz <;> simp [llarp_win32_loop.run, h]

/-- C12 (the code at the failing input): with a read buffer of 4096 bytes, a
completion reporting 4097 bytes for a source in read mode is forwarded by
`tick` to `read` with length 4097, whereas `run` on the same completion does
not call `read`. -/
theorem tick_forwards_oversize_completion :
    (4096 : Nat) < 4097 ∧
    (llarp_win32_loop.tick ⟨4, [⟨1, fd_t.socket 3, false, false⟩]⟩ 100
        ⟨true, 4097, some ⟨1, fd_t.socket 3, false, false⟩, true⟩).2 =
      [TickEvent.wait 4 100, TickEvent.read 1 4097, TickEvent.tick_listeners] ∧
    (llarp_win32_loop.run 4096 ⟨4, [⟨1, fd_t.socket 3, false, false⟩]⟩
        ⟨true, 4097, some ⟨1, fd_t.socket 3, false, false⟩, true⟩).2 =
      [TickEvent.wait 4 10, TickEvent.tick_listeners] := by
  decide

end llarp

namespace abyss.http

/-! ## The HTTP header reader -/

/-- The search fails exactly when no character satisfies the predicate. -/
theorem find_if_eq_none (p : Char → Bool) (s : List Char) :
    find_if p s = none ↔ ∀ c ∈ s, p c = false := by
  induction s with
  | nil => simp [find_if]
  | cons a s ih =>
    cases hp : p a <;> simp [find_if, hp, ih]

/-- A successful search splits the text at the first character satisfying the
predicate. -/
theorem find_if_eq_some (p : Char → Bool) (s : List Char) (i : Nat)
    (h : find_if p s = some i) :
    i < s.length ∧ s.take i = s.takeWhile (fun c => !p c) ∧
      s.drop i = s.dropWhile (fun c => !p c) := by
  induction s generalizing i with
  | nil => simp [find_if] at h
  | cons a s ih =>
    cases hp : p a with
    | true =>
      simp only [find_if, hp, if_true, Option.some.injEq] at h
      subst h
      simp [List.takeWhile, List.dropWhile, hp]
    | false =>
      simp only [find_if, hp, Bool.false_eq_true, if_false, Option.map_eq_some'] at h
      obtain ⟨j, hj, rfl⟩ := h
      obtain ⟨h1, h2, h3⟩ := ih j hj
      refine ⟨by simp only [List.length_cons]; omega, ?_, ?_⟩
      · simp [List.takeWhile, hp, h2]
      · simp [List.dropWhile, hp, h3]

/-- The one-argument `substr(pos)` of a text with `pos` inside it is the text from
`pos` on. -/
theorem substr_from (s : List Char) (pos : Nat) (hpos : pos ≤ s.length)
    (hsz : s.length ≤ npos) : substr s pos npos = some (s.drop pos) := by
  have hmin : min npos (s.length - pos) = s.length - pos := by omega
  simp only [substr, Nat.not_lt.2 hpos, if_false, hmin]
  rw [List.take_of_length_le (by simp)]

/-- The call `substr(npos)` throws on every text shorter than `npos`. -/
theorem substr_npos (s : List Char) (hsz : s.length < npos) : substr s npos npos = none := by
  simp [substr, hsz]

/-- What `ProcessHeaderLine` does on every line (of a length a `size_t` can hold).
An empty line sets `done` and returns `true`; a non-empty line without `:`
returns `false`; both leave the headers alone. A line with `:` whose
lowercased name is not to be processed returns `true` and leaves the headers
alone. A line with `:` whose name is to be processed and whose value has a
character other than a space returns `true` after emplacing the value
without its leading spaces under the lowercased name; when the value is
empty or all spaces the call throws. -/
theorem HeaderReader.ProcessHeaderLine_cases {H : Type}
    (ShouldProcessHeader : List Char → Bool) (emplace : H → List Char → List Char → H)
    (headers : H) (line : List Char) (done : Bool) (hsz : line.length ≤ npos) :
    (line = [] →
      HeaderReader.ProcessHeaderLine ShouldProcessHeader emplace headers line done =
        some ⟨true, true, headers⟩) ∧
    (line ≠ [] → ':' ∉ line →
      HeaderReader.ProcessHeaderLine ShouldProcessHeader emplace headers line done =
        some ⟨false, done, headers⟩) ∧
    (':' ∈ line →
      ShouldProcessHeader ((line.takeWhile (fun c => c != ':')).map tolower) = false →
      HeaderReader.ProcessHeaderLine ShouldProcessHeader emplace headers line done =
        some ⟨true, done, headers⟩) ∧
    (':' ∈ line →
      ShouldProcessHeader ((line.takeWhile (fun c => c != ':')).map tolower) = true →
      (∃ c ∈ (line.dropWhile (fun c => c != ':')).drop 1, c ≠ ' ') →
      HeaderReader.ProcessHeaderLine ShouldProcessHeader emplace headers line done =
        some ⟨true, done,
          emplace headers ((line.takeWhile (fun c => c != ':')).map tolower)
            (((line.dropWhile (fun c => c != ':')).drop 1).dropWhile (fun c => c == ' '))⟩) ∧
    (':' ∈ line →
      ShouldProcessHeader ((line.takeWhile (fun c => c != ':')).map tolower) = true →
      (∀ c ∈ (line.dropWhile (fun c => c != ':')).drop 1, c = ' ') →
      HeaderReader.ProcessHeaderLine ShouldProcessHeader emplace headers line done =
        none) := by
  have hcolon : ':' ∈ line →
      ∃ i, find_if (fun c => c == ':') line = some i ∧ i < line.length ∧
        line.take i = line.takeWhile (fun c => c != ':') ∧
        line.drop (1 + i) = (line.dropWhile (fun c => c != ':')).drop 1 := by
    intro hmem
    cases hf : find_if (fun c => c == ':') line with
    | none =>
      have := (find_if_eq_none _ _).1 hf ':' hmem
      simp at this
    | some i =>
      obtain ⟨h1, h2, h3⟩ := find_if_eq_some _ _ _ hf
      refine ⟨i, rfl, h1, ?_, ?_⟩
      · simpa [bne] using h2
      · have h3' : line.drop i = line.dropWhile (fun c => c != ':') := by
          simpa [bne] using h3
        rw [← h3', List.drop_drop, Nat.add_comm]
  have hstart : ∀ i, find_if (fun c => c == ':') line = some i → i < line.length →
      HeaderReader.ProcessHeaderLine ShouldProcessHeader emplace headers line done =
        if ShouldProcessHeader ((line.take i).map tolower) then
          match substr (line.drop (1 + i)) (find_first_not_of (line.drop (1 + i)) ' ') npos with
          | some val1 => some ⟨true, done, emplace headers ((line.take i).map tolower) val1⟩
          | none => none
        else some ⟨true, done, headers⟩ := by
    intro i hf hi
    have hne : line.length ≠ 0 := by omega
    have hidx : find_first_of line ':' = i := by simp [find_first_of, hf]
    have hnp : i ≠ npos := by omega
    have hs1 : substr line 0 i = some (line.take i) := by
      have hmin : min i (line.length - 0) = i := by omega
      simp [substr, hmin]
    have hs2 : substr line (1 + i) npos = some (line.drop (1 + i)) :=
      substr_from line (1 + i) (by omega) hsz
    simp only [HeaderReader.ProcessHeaderLine, hne, if_false, hidx, hnp, hs1, hs2]
  refine ⟨?_, ?_, ?_, ?_, ?_⟩
  · intro h
    subst h
    simp [HeaderReader.ProcessHeaderLine]
  · intro hne hnot
    have hlen : line.length ≠ 0 := by
      intro h; exact hne (List.length_eq_zero.1 h)
    have hf : find_if (fun c => c == ':') line = none := by
      rw [find_if_eq_none]
      intro c hc
      have : c ≠ ':' := fun h => hnot (h ▸ hc)
      simpa using this
    simp [HeaderReader.ProcessHeaderLine, hlen, find_first_of, hf]
  · intro hmem hsp
    obtain ⟨i, hf, hi, ht, -⟩ := hcolon hmem
    rw [hstart i hf hi, ht, hsp]
    simp
  · intro hmem hsp hex
    obtain ⟨i, hf, hi, ht, hd⟩ := hcolon hmem
    rw [hstart i hf hi, ht, hsp, hd]
    simp only [if_true]
    obtain ⟨c, hc, hcne⟩ := hex
    cases hv : find_if (fun c => c != ' ') ((line.dropWhile (fun c => c != ':')).drop 1) with
    | none =>
      have := (find_if_eq_none _ _).1 hv c hc
      simp at this
      exact absurd this hcne
    | some j =>
      obtain ⟨h1, -, h3⟩ := find_if_eq_some _ _ _ hv
      have hvl : ((line.dropWhile (fun c => c != ':')).drop 1).length ≤ npos := by
        rw [← hd, List.length_drop]; omega
      have h3' : ((line.dropWhile (fun c => c != ':')).drop 1).drop j =
          ((line.dropWhile (fun c => c != ':')).drop 1).dropWhile (fun c => c == ' ') := by
        rw [h3]
        congr 1
        funext c
        simp [bne]
      simp only [find_first_not_of, hv, Option.getD_some]
      rw [substr_from _ j (le_of_lt h1) hvl, h3']
  · intro hmem hsp hall
    obtain ⟨i, hf, hi, ht, hd⟩ := hcolon hmem
    rw [hstart i hf hi, ht, hsp, hd]
    simp only [if_true]
    have hv : find_if (fun c => c != ' ') ((line.dropWhile (fun c => c != ':')).drop 1) =
        none := by
      rw [find_if_eq_none]
      intro c hc
      simp [hall c hc]
    have hvl : ((line.dropWhile (fun c => c != ':')).drop 1).length < npos := by
      rw [← hd, List.length_drop]; omega
    simp only [find_first_not_of, hv, Option.getD_none]
    rw [substr_npos _ hvl]

/-- C13 (the code at the failing input): with every header name accepted, the line
`host:` and the line `host:` followed by two spaces make `ProcessHeaderLine`
throw (`val.substr(npos)`), instead of returning `true` with an empty value
stored; the line `Host: a` is stored as `host` with value `a`. -/
theorem process_header_line_throws_on_empty_value :
    HeaderReader.ProcessHeaderLine (fun _ => true) emplaceBack []
        ['h', 'o', 's', 't', ':'] false = none ∧
    HeaderReader.ProcessHeaderLine (fun _ => true) emplaceBack []
        ['h', 'o', 's', 't', ':', ' ', ' '] false = none ∧
    HeaderReader.ProcessHeaderLine (fun _ => true) emplaceBack []
        ['H', 'o', 's', 't', ':', ' ', 'a'] false =
      some ⟨true, false, [(['h', 'o', 's', 't'], ['a'])]⟩ :=
  ⟨rfl, rfl, rfl⟩

end abyss.http
